import Mathlib

/-!
# Verification of the llm-os kernel against its specification

Shallow embedding of the kernel's capability tokens, static analyzer,
per-app storage, registry, scheduler, WASM memory validator and
generation gateway, with theorems settling the frozen claims.

Bytes are `Nat` values below 256, byte strings are `List Nat`, and
JavaScript strings are `List Char`.  Machine arithmetic is `Nat`/`Int`
with explicit reductions modulo `2^32` where JavaScript's 32-bit
bitwise semantics matter.
-/

set_option maxRecDepth 8192

namespace LlmOs

/-- The modulus of JavaScript's 32-bit bitwise world, 2^32. -/
def two32 : Nat := 4294967296

/-- Truncate a natural number to 32 bits. -/
def mask32 (n : Nat) : Nat := n % two32

/-- Addition of 32-bit words modulo 2^32 (SHA-256 arithmetic). -/
def add32 (a b : Nat) : Nat := mask32 (a + b)

/-- Right rotation of a 32-bit word. -/
def rotr32 (n x : Nat) : Nat := mask32 ((x >>> n) ||| (x <<< (32 - n)))

/-- Logical right shift of a 32-bit word. -/
def shr32 (n x : Nat) : Nat := x >>> n

/-- Bitwise complement of a 32-bit word. -/
def not32 (x : Nat) : Nat := 4294967295 - (x % two32)

-- ---------------------------------------------------------------------------
-- SHA-256 (FIPS 180-4), used by the registry's content hash and by the
-- capability system's HMAC.  Input and output are byte lists.
-- ---------------------------------------------------------------------------

/-- The 64 SHA-256 round constants (FIPS 180-4 §4.2.2, written in
decimal). -/
def shaK : List Nat :=
  [1116352408, 1899447441, 3049323471, 3921009573, 961987163,
   1508970993, 2453635748, 2870763221, 3624381080, 310598401,
   607225278, 1426881987, 1925078388, 2162078206, 2614888103,
   3248222580, 3835390401, 4022224774, 264347078, 604807628,
   770255983, 1249150122, 1555081692, 1996064986, 2554220882,
   2821834349, 2952996808, 3210313671, 3336571891, 3584528711,
   113926993, 338241895, 666307205, 773529912, 1294757372,
   1396182291, 1695183700, 1986661051, 2177026350, 2456956037,
   2730485921, 2820302411, 3259730800, 3345764771, 3516065817,
   3600352804, 4094571909, 275423344, 430227734, 506948616,
   659060556, 883997877, 958139571, 1322822218, 1537002063,
   1747873779, 1955562222, 2024104815, 2227730452, 2361852424,
   2428436474, 2756734187, 3204031479, 3329325298]

/-- Initial SHA-256 state (FIPS 180-4 §5.3.3, written in decimal). -/
def shaH0 : List Nat :=
  [1779033703, 3144134277, 1013904242, 2773480762,
   1359893119, 2600822924, 528734635, 1541459225]

/-- Big-endian bytes of a 64-bit length. -/
def be64 (n : Nat) : List Nat :=
  [(n >>> 56) % 256, (n >>> 48) % 256, (n >>> 40) % 256, (n >>> 32) % 256,
   (n >>> 24) % 256, (n >>> 16) % 256, (n >>> 8) % 256, n % 256]

/-- SHA-256 message padding: append 0x80, zero bytes, and the bit length. -/
def shaPad (msg : List Nat) : List Nat :=
  let l := msg.length
  let zeros := (64 - ((l + 9) % 64)) % 64
  msg ++ [0x80] ++ List.replicate zeros 0 ++ be64 (8 * l)

/-- Combine four bytes into a big-endian 32-bit word. -/
def word32 (a b c d : Nat) : Nat := ((a * 256 + b) * 256 + c) * 256 + d

/-- Split a padded chunk (64 bytes) into its 16 initial schedule words. -/
def chunkWords : List Nat → List Nat
  | a :: b :: c :: d :: rest => word32 a b c d :: chunkWords rest
  | _ => []

/-- Extend the message schedule to `n` further words. -/
def extendSchedule (ws : List Nat) : Nat → List Nat
  | 0 => ws
  | n + 1 =>
    let i := ws.length
    let w15 := ws.getD (i - 15) 0
    let w2 := ws.getD (i - 2) 0
    let s0 := (rotr32 7 w15) ^^^ (rotr32 18 w15) ^^^ (shr32 3 w15)
    let s1 := (rotr32 17 w2) ^^^ (rotr32 19 w2) ^^^ (shr32 10 w2)
    extendSchedule
      (ws ++ [add32 (add32 (ws.getD (i - 16) 0) s0) (add32 (ws.getD (i - 7) 0) s1)]) n

/-- One SHA-256 compression round. -/
def shaRound (st : List Nat) (k w : Nat) : List Nat :=
  match st with
  | [a, b, c, d, e, f, g, h] =>
    let s1 := (rotr32 6 e) ^^^ (rotr32 11 e) ^^^ (rotr32 25 e)
    let ch := (e &&& f) ^^^ ((not32 e) &&& g)
    let t1 := add32 h (add32 s1 (add32 ch (add32 k w)))
    let s0 := (rotr32 2 a) ^^^ (rotr32 13 a) ^^^ (rotr32 22 a)
    let mj := (a &&& b) ^^^ (a &&& c) ^^^ (b &&& c)
    let t2 := add32 s0 mj
    [add32 t1 t2, a, b, c, add32 d t1, e, f, g]
  | st => st

/-- Run the 64 compression rounds of one chunk and add into the state. -/
def shaCompress (h : List Nat) (chunk : List Nat) : List Nat :=
  let ws := extendSchedule (chunkWords chunk) 48
  let fin := (shaK.zip ws).foldl (fun st kw => shaRound st kw.1 kw.2) h
  (h.zip fin).map (fun p => add32 p.1 p.2)

/-- Fold the compression function over the 64-byte chunks. -/
def shaChunks (h : List Nat) (msg : List Nat) (fuel : Nat) : List Nat :=
  match fuel with
  | 0 => h
  | fuel + 1 =>
    if msg.length = 0 then h
    else shaChunks (shaCompress h (msg.take 64)) (msg.drop 64) fuel

/-- Serialize the eight state words to the 32 digest bytes, big-endian. -/
def wordsToBytes (ws : List Nat) : List Nat :=
  ws.flatMap (fun w => [(w >>> 24) % 256, (w >>> 16) % 256, (w >>> 8) % 256, w % 256])

/-- SHA-256 of a byte list. -/
def sha256 (msg : List Nat) : List Nat :=
  let padded := shaPad msg
  wordsToBytes (shaChunks shaH0 padded (padded.length / 64 + 1))

-- ---------------------------------------------------------------------------
-- HMAC-SHA256 (RFC 2104), modelling `crypto.subtle.sign('HMAC', key, data)`.
-- ---------------------------------------------------------------------------

/-- HMAC-SHA256 of a message under a key of arbitrary byte length. -/
def hmacSha256 (key msg : List Nat) : List Nat :=
  let k0 := if key.length > 64 then sha256 key else key
  let kPad := k0 ++ List.replicate (64 - k0.length) 0
  let ipad := kPad.map (fun b => b ^^^ 0x36)
  let opad := kPad.map (fun b => b ^^^ 0x5c)
  sha256 (opad ++ sha256 (ipad ++ msg))

-- ---------------------------------------------------------------------------
-- base64url, modelling the `base64url` / `base64urlDecode` helpers of
-- src/kernel/capabilities.js and the Node `Buffer` base64 codec they call.
-- ---------------------------------------------------------------------------

/-- The standard base64 alphabet as a character list. -/
def b64Alphabet : List Char :=
  "ABCDEFGHIJKLMNOPQRSTUVWXYZabcdefghijklmnopqrstuvwxyz0123456789+/".toList

/-- Character for a 6-bit value in the base64url alphabet
(standard alphabet with `+`, `/` replaced by `-`, `_`, per the JS
`base64url` helper's replace chain). -/
def b64urlChar (v : Nat) : Char :=
  if v = 62 then '-' else if v = 63 then '_' else b64Alphabet.getD v 'A'

/-- Value of a standard-base64 character, `none` outside the alphabet. -/
def b64Val (c : Char) : Option Nat :=
  b64Alphabet.findIdx? (fun a => a = c)

/-- base64url-encode a byte list (no padding), as `buf.toString('base64')`
followed by the `+`/`-`, `/`/`_` swaps and `=`-stripping of `base64url`. -/
def base64urlEncode : List Nat → List Char
  | a :: b :: c :: rest =>
    b64urlChar (a / 4) :: b64urlChar ((a % 4) * 16 + b / 16) ::
    b64urlChar ((b % 16) * 4 + c / 64) :: b64urlChar (c % 64) ::
    base64urlEncode rest
  | [a, b] =>
    [b64urlChar (a / 4), b64urlChar ((a % 4) * 16 + b / 16), b64urlChar ((b % 16) * 4)]
  | [a] => [b64urlChar (a / 4), b64urlChar ((a % 4) * 16)]
  | [] => []

/-- Decode a list of 6-bit values to bytes, four values to three bytes,
dropping the 2 or 4 padding bits of a trailing group of three or two. -/
def b64Dec : List Nat → List Nat
  | a :: b :: c :: d :: rest =>
    (a * 4 + b / 16) :: ((b % 16) * 16 + c / 4) :: ((c % 4) * 64 + d) :: b64Dec rest
  | [a, b, c] => [a * 4 + b / 16, (b % 16) * 16 + c / 4]
  | [a, b] => [a * 4 + b / 16]
  | _ => []

/-- Modelled from Node's lenient `Buffer.from(str, 'base64')`: characters
outside the standard alphabet (including `=` padding) are ignored, then
6-bit groups are packed into bytes. -/
def bufferFromBase64 (s : List Char) : List Nat :=
  b64Dec (s.filterMap b64Val)

/-- The `base64urlDecode` step swapping `-` and `_` back to `+` and `/`. -/
def b64urlToStd (c : Char) : Char :=
  if c = '-' then '+' else if c = '_' then '/' else c

/-- The `base64urlDecode` helper: re-pad with `=`, swap `-`/`_` back to
`+`/`/`, and decode as base64. -/
def base64urlDecode (s : List Char) : List Nat :=
  bufferFromBase64
    ((s ++ List.replicate ((4 - s.length % 4) % 4) '=').map b64urlToStd)

/-- The 6-bit values the encoder assigns to a byte list. -/
def b64Vals : List Nat → List Nat
  | a :: b :: c :: rest =>
    a / 4 :: ((a % 4) * 16 + b / 16) :: ((b % 16) * 4 + c / 64) :: (c % 64) ::
    b64Vals rest
  | [a, b] => [a / 4, (a % 4) * 16 + b / 16, (b % 16) * 4]
  | [a] => [a / 4, (a % 4) * 16]
  | [] => []

-- ---------------------------------------------------------------------------
-- JavaScript strings and JSON, as used by the capability token payloads.
-- ---------------------------------------------------------------------------

/-- Modelled UTF-8 encoding of a JS string (`Buffer.from(str)`), exact for
ASCII; all strings fed to it in this development are ASCII. -/
def strBytes (s : List Char) : List Nat := s.map Char.toNat

/-- Modelled UTF-8 decoding (`buf.toString('utf-8')`), exact for ASCII. -/
def bytesToStr (bs : List Nat) : List Char := bs.map Char.ofNat

/-- A character that JSON prints verbatim inside a string literal and that is
single-byte UTF-8: printable ASCII other than the quote and the backslash. -/
def plainChar (c : Char) : Prop :=
  32 ≤ c.toNat ∧ c.toNat < 128 ∧ c ≠ '"' ∧ c ≠ '\\'

instance (c : Char) : Decidable (plainChar c) := by unfold plainChar; infer_instance

/-- All characters of a string are plain. -/
def plainStr (s : List Char) : Prop := ∀ c ∈ s, plainChar c

instance (s : List Char) : Decidable (plainStr s) := by
  unfold plainStr; exact List.decidableBAll _ s

/-- Decimal digit character. -/
def digitChar (d : Nat) : Char := Char.ofNat (48 + d)

/-- Fuelled decimal printer (structural so the kernel can evaluate it). -/
def natToDigitsAux : Nat → Nat → List Char
  | 0, _ => []
  | fuel + 1, n =>
    if n < 10 then [digitChar n]
    else natToDigitsAux fuel (n / 10) ++ [digitChar (n % 10)]

/-- Decimal representation of a natural number, as `JSON.stringify` prints a
non-negative integer. -/
def natToDigits (n : Nat) : List Char := natToDigitsAux (n + 1) n

/-- The hex digit character for a value below 16 (lowercase). -/
def hexChar (d : Nat) : Char :=
  if d < 10 then Char.ofNat (48 + d) else Char.ofNat (87 + d)

/-- JSON escaping of one character, per `JSON.stringify`: quote and backslash
are backslash-escaped, control characters get their short or u-escapes,
everything else prints verbatim. -/
def jsonEscChar (c : Char) : List Char :=
  if c = '"' then ['\\', '"']
  else if c = '\\' then ['\\', '\\']
  else if c.toNat = 8 then ['\\', 'b']
  else if c.toNat = 9 then ['\\', 't']
  else if c.toNat = 10 then ['\\', 'n']
  else if c.toNat = 12 then ['\\', 'f']
  else if c.toNat = 13 then ['\\', 'r']
  else if c.toNat < 32 then
    ['\\', 'u', '0', '0', hexChar (c.toNat / 16), hexChar (c.toNat % 16)]
  else [c]

/-- JSON escaping of a whole string body. -/
def jsonEscStr (s : List Char) : List Char := s.flatMap jsonEscChar

/-- A capability token payload: the object
`\x7b appId, cap, scope: \x7b\x7d, exp, nonce \x7d` built by `signToken`. -/
structure Payload where
  appId : List Char
  cap : List Char
  exp : Nat
  nonce : List Char
deriving DecidableEq, Repr

/-- The literal JSON segment up to the opening quote of `appId`. -/
def jsonLit1 : List Char := "\x7b\"appId\":\"".toList

/-- The literal JSON segment between `appId` and the `cap` value. -/
def jsonLit2 : List Char := ",\"cap\":\"".toList

/-- The literal JSON segment between `cap` and the `exp` value. -/
def jsonLit3 : List Char := ",\"scope\":\x7b\x7d,\"exp\":".toList

/-- The literal JSON segment between `exp` and the `nonce` value. -/
def jsonLit4 : List Char := ",\"nonce\":\"".toList

/-- The payload JSON text, exactly as `JSON.stringify` serializes the object
literal of `signToken` (insertion order `appId, cap, scope, exp, nonce`). -/
def printPayload (p : Payload) : List Char :=
  jsonLit1 ++ (jsonEscStr p.appId ++ ('"' :: (jsonLit2 ++ (jsonEscStr p.cap ++
    ('"' :: (jsonLit3 ++ (natToDigits p.exp ++ (jsonLit4 ++
    (jsonEscStr p.nonce ++ ['"', '\x7d'])))))))))

/-- Consume an exact expected prefix. -/
def dropPrefixExact : List Char → List Char → Option (List Char)
  | [], s => some s
  | _ :: _, [] => none
  | p :: ps, c :: cs => if c = p then dropPrefixExact ps cs else none

/-- Read a JSON string body up to its closing quote, unescaping the two
basic escapes the canonical payloads can contain. -/
def readJsonStringAux : Bool → List Char → Option (List Char × List Char)
  | _, [] => none
  | true, c :: cs =>
    if c = '"' then (readJsonStringAux false cs).map (fun r => ('"' :: r.1, r.2))
    else if c = '\\' then (readJsonStringAux false cs).map (fun r => ('\\' :: r.1, r.2))
    else none
  | false, c :: cs =>
    if c = '"' then some ([], cs)
    else if c = '\\' then readJsonStringAux true cs
    else (readJsonStringAux false cs).map (fun r => (c :: r.1, r.2))

/-- Read a JSON string body up to its closing quote (the `Bool` of the
worker is the pending-escape flag). -/
def readJsonString : List Char → Option (List Char × List Char) :=
  readJsonStringAux false

/-- Read a maximal run of decimal digits. -/
def readDigits : List Char → List Nat × List Char
  | [] => ([], [])
  | c :: cs =>
    if 48 ≤ c.toNat ∧ c.toNat ≤ 57 then
      let r := readDigits cs
      ((c.toNat - 48) :: r.1, r.2)
    else ([], c :: cs)

/-- Read a non-negative decimal integer. -/
def readNat (s : List Char) : Option (Nat × List Char) :=
  let r := readDigits s
  if r.1 = [] then none
  else some (r.1.foldl (fun acc d => acc * 10 + d) 0, r.2)

/-- Modelled from `JSON.parse` as applied to capability token payloads: an
exact parser for the canonical shape `signToken` emits; any other JSON shape
is rejected, which is conservative and only ever exercised here on
kernel-issued payloads. -/
def parsePayloadJson (s : List Char) : Option Payload :=
  match dropPrefixExact jsonLit1 s with
  | none => none
  | some s1 =>
    match readJsonString s1 with
    | none => none
    | some (appId, s2) =>
      match dropPrefixExact jsonLit2 s2 with
      | none => none
      | some s3 =>
        match readJsonString s3 with
        | none => none
        | some (cap, s4) =>
          match dropPrefixExact jsonLit3 s4 with
          | none => none
          | some s5 =>
            match readNat s5 with
            | none => none
            | some (exp, s6) =>
              match dropPrefixExact jsonLit4 s6 with
              | none => none
              | some s7 =>
                match readJsonString s7 with
                | none => none
                | some (nonce, s8) =>
                  if s8 = ['\x7d'] then some ⟨appId, cap, exp, nonce⟩ else none

-- ---------------------------------------------------------------------------
-- Capability tokens: signToken / verifyToken / revokeToken / grant / revokeAll
-- from src/kernel/capabilities.js.
-- ---------------------------------------------------------------------------

/-- Token lifetime: 4 hours, in seconds. -/
def TOKEN_TTL_SECONDS : Nat := 4 * 60 * 60

/-- The pre-computed constant header segment
(base64url of the serialized header object). -/
def HEADER_B64 : List Char :=
  base64urlEncode (strBytes "\x7b\"alg\":\"HS256\",\"typ\":\"LLMOS-CAP\"\x7d".toList)

/-- Sign a capability token: payload JSON, base64url, HMAC over
`header.payload`, appended as the third dot-separated segment.  The nonce
(16 random bytes as 32 hex characters in the source) and the expiry are
parameters, modelling `randomBytes` and `Date.now`. -/
def signToken (key : List Nat) (appId cap : List Char) (exp : Nat)
    (nonce : List Char) : List Char :=
  let payloadB64 := base64urlEncode (strBytes (printPayload ⟨appId, cap, exp, nonce⟩))
  let signingInput := HEADER_B64 ++ '.' :: payloadB64
  signingInput ++ '.' :: base64urlEncode (hmacSha256 key (strBytes signingInput))

/-- Result of `verifyToken`: `\x7b valid, payload?, error? \x7d`. -/
structure VerifyResult where
  valid : Bool
  payload : Option Payload := none
  error : Option String := none
deriving DecidableEq, Repr

/-- Split a JS string on `.` as `tokenStr.split('.')` does. -/
def splitOnDot : List Char → List (List Char)
  | [] => [[]]
  | c :: cs =>
    if c = '.' then [] :: splitOnDot cs
    else
      match splitOnDot cs with
      | [] => [[c]]
      | p :: ps => (c :: p) :: ps

/-- The body of `verifyToken` once the token has split into exactly three
dot-separated segments: constant-time HMAC comparison, payload parse,
expiry, revocation. -/
def verifyBody (k : List Nat) (nowSec : Nat) (revoked : List (List Char))
    (headerB64 payloadB64 sigB64 : List Char) : VerifyResult :=
  let signingInput := headerB64 ++ '.' :: payloadB64
  let expectedSig := hmacSha256 k (strBytes signingInput)
  let actualSig := base64urlDecode sigB64
  if actualSig.length ≠ expectedSig.length then
    { valid := false, error := some "invalid_signature" }
  else if actualSig ≠ expectedSig then
    { valid := false, error := some "invalid_signature" }
  else
    match parsePayloadJson (bytesToStr (base64urlDecode payloadB64)) with
    | none => { valid := false, error := some "invalid_payload" }
    | some payload =>
      if nowSec > payload.exp then { valid := false, error := some "expired" }
      else if payload.nonce ∈ revoked then { valid := false, error := some "revoked" }
      else { valid := true, payload := some payload }

/-- Verify a capability token (`verifyToken`): structural check, constant-time
HMAC comparison, payload parse, expiry, revocation.  The session key, the
current Unix time and the revocation set are explicit parameters. -/
def verifyToken (key : Option (List Nat)) (nowSec : Nat)
    (revoked : List (List Char)) (tok : List Char) : VerifyResult :=
  match key with
  | none => { valid := false, error := some "no_key" }
  | some k =>
    match splitOnDot tok with
    | [headerB64, payloadB64, sigB64] => verifyBody k nowSec revoked headerB64 payloadB64 sigB64
    | _ => { valid := false, error := some "malformed" }

/-- Revoke a single token (`revokeToken`): best-effort extraction of the
nonce from segment 1; on any failure (or a falsy nonce) the set is
unchanged. -/
def revokeToken (revoked : List (List Char)) (tok : List Char) :
    List (List Char) :=
  match (splitOnDot tok).get? 1 with
  | none => revoked
  | some payloadB64 =>
    match parsePayloadJson (bytesToStr (base64urlDecode payloadB64)) with
    | none => revoked
    | some p => if p.nonce = [] then revoked else p.nonce :: revoked

/-- The whitelist of grantable capability types. -/
def CAPABILITY_TYPES : List (List Char) :=
  ["ui:window", "storage:local", "timer:basic", "clipboard:rw", "network:http",
   "process:background", "process:network", "process:volume", "api:anthropic"
  ].map String.toList

/-- Set a key in an association list (JS `Map.set`). -/
def setAssoc {α β : Type} [DecidableEq α] (m : List (α × β)) (k : α) (v : β) :
    List (α × β) :=
  if m.any (fun e => e.1 = k) then
    m.map (fun e => if e.1 = k then (k, v) else e)
  else m ++ [(k, v)]

/-- Look a key up in an association list (JS `Map.get`). -/
def getAssoc {α β : Type} [DecidableEq α] (m : List (α × β)) (k : α) :
    Option β :=
  (m.find? (fun e => e.1 = k)).map Prod.snd

/-- Remove a key from an association list (JS `Map.delete`). -/
def delAssoc {α β : Type} [DecidableEq α] (m : List (α × β)) (k : α) :
    List (α × β) :=
  m.filter (fun e => e.1 ≠ k)

/-- The capability module's mutable state: session HMAC key, revoked nonces,
per-app issued token lists and per-app capability sets. -/
structure CapState where
  hmacKey : Option (List Nat)
  revocationSet : List (List Char)
  appTokenMap : List (List Char × List (List Char))
  appCaps : List (List Char × List (List Char))

/-- Grant capabilities (`grantCapabilities`): filter against the whitelist,
sign one token per valid capability with expiry `now + TTL`, and record
them for the app.  `none` models the throw when the key is missing;
`nonces` models the stream of `randomBytes` nonces. -/
def grantCapabilities (st : CapState) (appId : List Char)
    (caps : List (List Char)) (nowSec : Nat) (nonces : List (List Char)) :
    Option (CapState × List (List Char)) :=
  match st.hmacKey with
  | none => none
  | some k =>
    let valid := caps.filter (fun c => c ∈ CAPABILITY_TYPES)
    let exp := nowSec + TOKEN_TTL_SECONDS
    let tokens := (valid.zip nonces).map (fun p => signToken k appId p.1 exp p.2)
    some ({ st with
            appTokenMap := setAssoc st.appTokenMap appId tokens,
            appCaps := setAssoc st.appCaps appId valid },
          tokens)

/-- Revoke everything for an app (`revokeAll`): revoke each issued token and
drop the app from both maps. -/
def revokeAll (st : CapState) (appId : List Char) : CapState :=
  let tokens := (getAssoc st.appTokenMap appId).getD []
  { st with
    appCaps := delAssoc st.appCaps appId,
    revocationSet := tokens.foldl revokeToken st.revocationSet,
    appTokenMap := delAssoc st.appTokenMap appId }

/-- Flip bit `k` of the character at index `i` (single-bit mutation of the
token string, reading the string as its character codes). -/
def mutateBit (s : List Char) (i k : Nat) : List Char :=
  s.set i (Char.ofNat (((s.getD i ' ').toNat) ^^^ (1 <<< k)))

-- ---------------------------------------------------------------------------
-- Static analyzer (the `runRules` / `analyze` engine).  Rules pair a
-- severity with a matcher; the regex `pattern` of each source rule is
-- abstracted as the function returning the match indices its `exec` loop
-- yields, so every theorem below quantifies over arbitrary rule sets and
-- so covers the concrete RULES array.
-- ---------------------------------------------------------------------------

/-- Severity of an analyzer rule or finding. -/
inductive Severity where
  | CRITICAL
  | WARNING
deriving DecidableEq, Repr

/-- An analyzer rule: identifier, severity, and the match indices its
regular expression produces on a given input. -/
structure Rule where
  id : List Char
  severity : Severity
  pattern : List Char → List Nat

/-- One analyzer finding. -/
structure Finding where
  rule : List Char
  severity : Severity
  line : Nat
  snippet : List Char
deriving DecidableEq, Repr

/-- The analyzer's result object. -/
structure AnalysisResult where
  passed : Bool
  criticalCount : Nat
  warningCount : Nat
  findings : List Finding
deriving DecidableEq, Repr

/-- Split a JS string on newlines, as `code.split('\n')`. -/
def splitOnNewline : List Char → List (List Char)
  | [] => [[]]
  | c :: cs =>
    if c = '\n' then [] :: splitOnNewline cs
    else
      match splitOnNewline cs with
      | [] => [[c]]
      | p :: ps => (c :: p) :: ps

/-- Count newline characters. -/
def countNewlines (s : List Char) : Nat := (s.filter (fun c => c = '\n')).length

/-- JS whitespace for `trim` and `\s` (modelled as the four common ASCII
whitespace characters, the only ones the analyzed texts contain). -/
def isWsChar (c : Char) : Bool := c = ' ' || c = '\t' || c = '\n' || c = '\r'

/-- JS `String.prototype.trim`. -/
def jsTrim (s : List Char) : List Char :=
  ((s.dropWhile isWsChar).reverse.dropWhile isWsChar).reverse

/-- Substring test (`String.prototype.includes`). -/
def containsSub (pat : List Char) : List Char → Bool
  | [] => pat.isEmpty
  | c :: rest => pat.isPrefixOf (c :: rest) || containsSub pat rest

/-- The trimmed content of the line a match at index `idx` falls on
(`runRules` computes the line number by counting newlines before the
match, then indexes the split lines). -/
def trimmedLineAt (code : List Char) (idx : Nat) : List Char :=
  jsTrim ((splitOnNewline code).getD (countNewlines (code.take idx)) [])

/-- The finding `runRules` pushes for rule `r` matching at `idx`, or `none`
when the line is exempt. -/
def findingAt (skipLine : List Char → Bool) (code : List Char) (r : Rule)
    (idx : Nat) : Option Finding :=
  let trimmed := trimmedLineAt code idx
  if skipLine trimmed then none
  else some
    { rule := r.id, severity := r.severity,
      line := countNewlines (code.take idx) + 1,
      snippet := trimmed.take 120 }

/-- The rule engine `runRules`: per-rule match scan, per-line exemptions,
severity counts, and `passed ⇔ criticalCount == 0`. -/
def runRules (code : List Char) (rules : List Rule)
    (skipLine : List Char → Bool) : AnalysisResult :=
  let findings := rules.flatMap (fun r =>
    (r.pattern code).filterMap (findingAt skipLine code r))
  let criticalCount :=
    (findings.filter (fun f => f.severity = Severity.CRITICAL)).length
  { passed := criticalCount == 0,
    criticalCount := criticalCount,
    warningCount :=
      (findings.filter (fun f => f.severity = Severity.WARNING)).length,
    findings := findings }

/-- The exemption predicate of `analyze`: capability declaration comments
and injected SDK marker lines. -/
def analyzeSkipLine (line : List Char) : Bool :=
  ("<!--".toList.isPrefixOf line && containsSub "capabilities".toList line)
    || containsSub "// LLM-OS SDK".toList line

/-- The `analyze` entry point over a rule set (the concrete RULES array is
abstracted as the `rules` argument). -/
def analyzeWith (rules : List Rule) (code : List Char) : AnalysisResult :=
  runRules code rules analyzeSkipLine

/-- A concrete critical rule for evaluation: every index where the text
`eval(` occurs, as the EVAL_USAGE regex finds on plain code. -/
def demoEvalRule : Rule :=
  { id := "EVAL_USAGE".toList, severity := Severity.CRITICAL,
    pattern := fun code =>
      (List.range code.length).filter
        (fun i => "eval(".toList.isPrefixOf (code.drop i)) }

-- ---------------------------------------------------------------------------
-- Per-app persistent storage (storageGet / storageSet and helpers).
-- Values are modelled as the JSON scalars the apps store; a store is the
-- in-memory `Map` of one app's cache entry, with JS `Map` semantics.
-- ---------------------------------------------------------------------------

/-- A stored JSON value. -/
inductive StoreVal where
  | vstr (s : List Char)
  | vnum (n : Nat)
  | vbool (b : Bool)
deriving DecidableEq, Repr

/-- `JSON.stringify` of a stored value. -/
def stringifyVal : StoreVal → List Char
  | .vstr s => '"' :: (jsonEscStr s ++ ['"'])
  | .vnum n => natToDigits n
  | .vbool b => if b then "true".toList else "false".toList

/-- One app's store: the `Map` of its cache entry (association list in
insertion order, as JS `Map` iterates). -/
abbrev Store : Type := List (List Char × StoreVal)

/-- The 5 MiB default quota. -/
def DEFAULT_QUOTA : Nat := 5 * 1024 * 1024

/-- `calcSize`: 2 for the braces, then per entry the stringified key, the
stringified value, and 4 for quotes-colon-comma overhead. -/
def calcSize (data : Store) : Nat :=
  data.foldl
    (fun size e =>
      size + ('"' :: (jsonEscStr e.1 ++ ['"'])).length
        + (stringifyVal e.2).length + 4) 2

/-- `storageGet`: the stored value, or null (`none`). -/
def storageGet (store : Store) (key : List Char) : Option StoreVal :=
  getAssoc store key

/-- `storageSet`: write, check the quota on the post-write size, and roll
back by deleting the key when over quota.  Returns the new store and the
`ok` flag. -/
def storageSet (store : Store) (key : List Char) (v : StoreVal) :
    Store × Bool :=
  let d1 := setAssoc store key v
  if calcSize d1 > DEFAULT_QUOTA then (delAssoc d1 key, false)
  else (d1, true)

/-- `storageRemove`. -/
def storageRemove (store : Store) (key : List Char) : Store × Bool :=
  (delAssoc store key, (getAssoc store key).isSome)

-- ---------------------------------------------------------------------------
-- Storage paths: the appId sanitizer and the per-app store path.
-- ---------------------------------------------------------------------------

/-- A character the sanitizer keeps: `[a-zA-Z0-9_-]`. -/
def appIdSafeChar (c : Char) : Bool :=
  (97 ≤ c.toNat && c.toNat ≤ 122) || (65 ≤ c.toNat && c.toNat ≤ 90)
    || (48 ≤ c.toNat && c.toNat ≤ 57) || c = '_' || c = '-'

/-- The `appDir` sanitizer: every character outside `[a-zA-Z0-9_-]`
becomes `_`. -/
def sanitizeAppId (s : List Char) : List Char :=
  s.map (fun c => if appIdSafeChar c then c else '_')

/-- The app's directory as path segments under the storage data root
(`join(DATA_DIR, safe)`). -/
def appDirSegs (dataRoot : List (List Char)) (appId : List Char) :
    List (List Char) :=
  dataRoot ++ [sanitizeAppId appId]

/-- The store-file path (`join(appDir(appId), 'store.json')`), the only
path `flushApp` writes for an app. -/
def storePathSegs (dataRoot : List (List Char)) (appId : List Char) :
    List (List Char) :=
  appDirSegs dataRoot appId ++ ["store.json".toList]

-- ---------------------------------------------------------------------------
-- App registry (src/kernel/registry/store.js): content-addressed map from
-- the 16-hex-character SHA-256 prefix to the app entry.  The entry carries
-- the fields the publish logic reads and writes; display metadata (title,
-- tags, normalized prompt) is omitted as it never feeds back into publish.
-- ---------------------------------------------------------------------------

/-- Lowercase hex of a byte list, as `digest('hex')`. -/
def bytesToHex (bs : List Nat) : List Char :=
  bs.flatMap (fun b => [hexChar (b / 16 % 16), hexChar (b % 16)])

/-- `contentHash`: the first 16 hex characters of SHA-256 of the code. -/
def contentHash (code : List Nat) : List Char :=
  (bytesToHex (sha256 code)).take 16

/-- A registry entry (the publish-relevant fields of AppEntry). -/
structure AppEntry where
  hash : List Char
  code : List Nat
  launches : Nat
  createdAt : Nat
deriving DecidableEq, Repr

/-- The result object of `publishApp`. -/
structure PublishResult where
  hash : List Char
  existing : Bool
  entry : AppEntry
deriving DecidableEq, Repr

/-- The registry: hash → entry, in insertion order. -/
abbrev Registry : Type := List (List Char × AppEntry)

/-- `publishApp`: deduplicate by content hash — an existing entry gets its
launch count bumped and is returned with `existing = true`; otherwise a
fresh entry with `launches = 1` is inserted. -/
def publishApp (apps : Registry) (code : List Nat) (nowMs : Nat) :
    Registry × PublishResult :=
  let hash := contentHash code
  match getAssoc apps hash with
  | some e =>
    let e2 := { e with launches := e.launches + 1 }
    (setAssoc apps hash e2, ⟨hash, true, e2⟩)
  | none =>
    let entry : AppEntry :=
      { hash := hash, code := code, launches := 1, createdAt := nowMs }
    (setAssoc apps hash entry, ⟨hash, false, entry⟩)

/-- Registry lookup (`getApp`). -/
def getApp (apps : Registry) (hash : List Char) : Option AppEntry :=
  getAssoc apps hash

/-- The registry invariant: every entry is stored under its own hash. -/
def RegistryInv (apps : Registry) : Prop :=
  ∀ p ∈ apps, (p : (List Char × AppEntry)).2.hash = p.1

-- ---------------------------------------------------------------------------
-- Task scheduler (src/kernel/scheduler.js).  The handler call is modelled
-- by its outcome (return or throw); clock readings and the current date
-- string are parameters.  The handler-context `trackLLMCall` mutation is
-- not modelled — no claim depends on budget consumption inside a run.
-- ---------------------------------------------------------------------------

/-- Circuit-breaker threshold: three consecutive failures. -/
def CIRCUIT_BREAKER_THRESHOLD : Nat := 3

/-- History ring size. -/
def MAX_HISTORY : Nat := 20

/-- One history entry: success flag, stats-or-error text, timestamps. -/
structure HistoryEntry where
  success : Bool
  info : List Char
  atMs : Nat
  duration : Nat
deriving DecidableEq, Repr

/-- A task's persisted state. -/
structure TaskState where
  enabled : Bool
  interval : Nat
  lastRun : Option Nat
  nextRun : Option Nat
  runCount : Nat
  successCount : Nat
  errorCount : Nat
  consecutiveErrors : Nat
  disabledReason : Option (List Char)
  llmCallsToday : Nat
  llmCallsDate : List Char
  lastResult : Option (List Char)
  lastError : Option (List Char × Nat)
  history : List HistoryEntry
deriving DecidableEq, Repr

/-- A handler call's outcome: a returned result (its stats text) or a
thrown error (its message). -/
inductive Outcome where
  | success (stats : List Char)
  | failure (message : List Char)
deriving DecidableEq, Repr

/-- `history.unshift(e)` followed by the bounded pop. -/
def pushHistory (e : HistoryEntry) (h : List HistoryEntry) :
    List HistoryEntry :=
  let h2 := e :: h
  if h2.length > MAX_HISTORY then h2.dropLast else h2

/-- `executeTask`: apply the handler outcome to the task state — reset the
error streak on success, count up and trip the circuit breaker at the
threshold on failure, then the `finally` bookkeeping. -/
def executeTask (ts : TaskState) (outcome : Outcome)
    (startTime endTime : Nat) : TaskState :=
  let ts1 :=
    match outcome with
    | .success stats =>
      { ts with
          consecutiveErrors := 0, successCount := ts.successCount + 1,
          lastResult := some stats, lastError := none,
          history := pushHistory ⟨true, stats, endTime, endTime - startTime⟩ ts.history }
    | .failure msg =>
      let ts2 :=
        { ts with
            consecutiveErrors := ts.consecutiveErrors + 1,
            errorCount := ts.errorCount + 1,
            lastError := some (msg, endTime), lastResult := none,
            history := pushHistory ⟨false, msg, endTime, endTime - startTime⟩ ts.history }
      if ts2.consecutiveErrors ≥ CIRCUIT_BREAKER_THRESHOLD then
        { ts2 with
            enabled := false, disabledReason := some "circuit-breaker".toList,
            nextRun := none }
      else ts2
  { ts1 with
      runCount := ts1.runCount + 1, lastRun := some endTime,
      nextRun := if ts1.enabled then some (endTime + ts1.interval) else none }

/-- `resetDailyBudget`: zero the day's LLM counter when the date rolled. -/
def resetDailyBudget (today : List Char) (ts : TaskState) : TaskState :=
  if ts.llmCallsDate ≠ today then
    { ts with llmCallsToday := 0, llmCallsDate := today }
  else ts

/-- `runNow`: manual run — only the unknown-task check, the process-wide
concurrency lock, and (for LLM tasks) the daily budget gate the handler.
Returns the new state and whether the handler ran. -/
def runNow (taskKnown running requiresLLM : Bool) (dailyBudget : Nat)
    (today : List Char) (ts : TaskState) (outcome : Outcome)
    (startTime endTime : Nat) : TaskState × Bool :=
  if taskKnown = false then (ts, false)
  else if running then (ts, false)
  else
    let ts2 := resetDailyBudget today ts
    if requiresLLM ∧ ts2.llmCallsToday ≥ dailyBudget then (ts2, false)
    else (executeTask ts2 outcome startTime endTime, true)

/-- `tick`: a timer firing — guarded in order by global pause, task
disablement, the user-activity defer window, the concurrency lock, the
circuit breaker, and the daily budget. -/
def tick (taskKnown paused : Bool) (nowMs lastActivity deferMs : Nat)
    (running requiresLLM : Bool) (dailyBudget : Nat) (today : List Char)
    (ts : TaskState) (outcome : Outcome) (startTime endTime : Nat) :
    TaskState × Bool :=
  if taskKnown = false then (ts, false)
  else if paused then (ts, false)
  else if ts.enabled = false then (ts, false)
  else if nowMs - lastActivity < deferMs then (ts, false)
  else if running then (ts, false)
  else if ts.consecutiveErrors ≥ CIRCUIT_BREAKER_THRESHOLD then (ts, false)
  else
    let ts2 := resetDailyBudget today ts
    if requiresLLM ∧ ts2.llmCallsToday ≥ dailyBudget then (ts2, false)
    else (executeTask ts2 outcome startTime endTime, true)

/-- `resetCircuitBreaker`: clear the error streak and the disable reason. -/
def resetCircuitBreaker (ts : TaskState) : TaskState :=
  { ts with consecutiveErrors := 0, disabledReason := none }

-- ---------------------------------------------------------------------------
-- WASM sandbox memory validator (src/kernel/wasm-sandbox/worker.js).
-- `readLEB128U` uses JavaScript bitwise operators, which act on 32-bit
-- signed integers; the embedding reproduces that (ToInt32 coercions, shift
-- counts masked to 5 bits).  Out-of-range `Uint8Array` reads give
-- `undefined`, whose bitwise coercion is 0, modelled by `byteAt`.
-- ---------------------------------------------------------------------------

/-- ToInt32: reduce an integer to the signed 32-bit range. -/
def toInt32 (n : Int) : Int :=
  let m := n % 4294967296
  if m < 2147483648 then m else m - 4294967296

/-- ToUint32 as a natural number. -/
def toUint32Nat (n : Int) : Nat := (n % 4294967296).toNat

/-- The JS `<<` operator: ToInt32 the operand, mask the count to 5 bits. -/
def jsShl (a : Int) (sh : Nat) : Int :=
  toInt32 (toInt32 a * 2 ^ (sh % 32))

/-- The JS `|` operator on 32-bit integers. -/
def jsOr (a b : Int) : Int :=
  toInt32 (Int.ofNat (toUint32Nat a ||| toUint32Nat b))

/-- `buf[i]` under bitwise coercion: the byte, or 0 for the `undefined`
an out-of-range `Uint8Array` read yields. -/
def byteAt (buf : List Nat) (i : Int) : Nat :=
  if 0 ≤ i ∧ i < (buf.length : Int) then buf.getD i.toNat 0 else 0

/-- The loop of `readLEB128U`: accumulate 7-bit groups with JS 32-bit `|`
and `<<` until a byte without the continuation bit (or the end of the
buffer).  Returns the value and the position after the read. -/
def readLEBAux (buf : List Nat) (pos : Int) (result : Int) (shift : Nat) :
    Nat → Int × Int
  | 0 => (result, pos)
  | fuel + 1 =>
    if pos < (buf.length : Int) then
      let byte := byteAt buf pos
      let r2 := jsOr result (jsShl (Int.ofNat (byte &&& 0x7F)) shift)
      if byte &&& 0x80 = 0 then (r2, pos + 1)
      else readLEBAux buf (pos + 1) r2 (shift + 7) fuel
    else (result, pos)

/-- `readLEB128U(buf, offset)`: value and bytes read.  The fuel covers the
whole buffer, which bounds the strictly advancing loop. -/
def readLEB128U (buf : List Nat) (offset : Int) : Int × Int :=
  let r := readLEBAux buf offset 0 0 (buf.length + 1)
  (r.1, r.2 - offset)

/-- The validator's rejection reasons. -/
inductive VErr where
  | invalidMagic
  | unboundedMemory
  | maximumExceeded (declared limit : Int)
deriving DecidableEq, Repr

/-- The thrown error's message text. -/
def vErrMessage : VErr → List Char
  | .invalidMagic => "Invalid WASM magic bytes".toList
  | .unboundedMemory =>
    "WASM module declares unbounded memory (no maximum). Rejected for safety.".toList
  | .maximumExceeded d l =>
    "WASM declares memory maximum ".toList ++ intToDigits d
      ++ " pages, limit is ".toList ++ intToDigits l
where
  /-- Decimal text of a JS integer. -/
  intToDigits (n : Int) : List Char :=
    if n < 0 then '-' :: natToDigits (-n).toNat else natToDigits n.toNat

/-- The outcome of `validateMemorySection`: success, a thrown error, or
divergence of the section-scan loop (reachable on adversarial section
lengths, where the JS `while` never terminates). -/
inductive VResult where
  | ok
  | err (e : VErr)
  | diverge
deriving DecidableEq, Repr

/-- The per-entry scan of the memory section: flags byte, initial limit,
and — when the flags announce one — the maximum, checked against the
page limit.  Returns the first violation and the final position. -/
def checkMemEntries (buf : List Nat) (pos : Int) (maxPages : Int) :
    Nat → Option VErr × Int
  | 0 => (none, pos)
  | n + 1 =>
    let flags := byteAt buf pos
    let p1 := pos + 1
    let initR := readLEB128U buf p1
    let p2 := p1 + initR.2
    if flags &&& 1 ≠ 0 then
      let maxR := readLEB128U buf p2
      let p3 := p2 + maxR.2
      if maxR.1 > maxPages then (some (.maximumExceeded maxR.1 maxPages), p3)
      else checkMemEntries buf p3 maxPages n
    else (some .unboundedMemory, p1)

/-- The entries of a memory section as the scanner reads them: the flags
byte and, when flagged, the JS-decoded maximum. -/
def memEntries (buf : List Nat) (pos : Int) : Nat → List (Nat × Option Int)
  | 0 => []
  | n + 1 =>
    let flags := byteAt buf pos
    let p1 := pos + 1
    let initR := readLEB128U buf p1
    let p2 := p1 + initR.2
    if flags &&& 1 ≠ 0 then
      let maxR := readLEB128U buf p2
      (flags, some maxR.1) :: memEntries buf (p2 + maxR.2) n
    else [(flags, none)]

/-- Scan one memory section starting at its content offset: read the entry
count, then check each entry. -/
def checkMemSection (buf : List Nat) (contentOffset : Int) (maxPages : Int) :
    Option VErr :=
  let countR := readLEB128U buf contentOffset
  (checkMemEntries buf (contentOffset + countR.2) maxPages countR.1.toNat).1

/-- The entries of the memory section at a content offset. -/
def sectionMemEntries (buf : List Nat) (contentOffset : Int) :
    List (Nat × Option Int) :=
  let countR := readLEB128U buf contentOffset
  memEntries buf (contentOffset + countR.2) countR.1.toNat

/-- The section-scan loop of `validateMemorySection`: section id byte, LEB
length, recurse at `sectionEnd`.  Fuel exhaustion models the JS loop
failing to terminate. -/
def validateMemLoop (buf : List Nat) (offset : Int) (maxPages : Int) :
    Nat → VResult
  | 0 => .diverge
  | fuel + 1 =>
    if offset < (buf.length : Int) then
      let sectionId := byteAt buf offset
      let o1 := offset + 1
      let lenR := readLEB128U buf o1
      let o2 := o1 + lenR.2
      let sectionEnd := o2 + lenR.1
      if sectionId = 5 then
        match checkMemSection buf o2 maxPages with
        | some e => .err e
        | none => validateMemLoop buf sectionEnd maxPages fuel
      else validateMemLoop buf sectionEnd maxPages fuel
    else .ok

/-- The sections the loop visits: id and content offset, in scan order. -/
def sectionScan (buf : List Nat) (offset : Int) : Nat → List (Nat × Int)
  | 0 => []
  | fuel + 1 =>
    if offset < (buf.length : Int) then
      let sectionId := byteAt buf offset
      let o1 := offset + 1
      let lenR := readLEB128U buf o1
      let o2 := o1 + lenR.2
      (sectionId, o2) :: sectionScan buf (o2 + lenR.1) fuel
    else []

/-- `validateMemorySection(bytes, maxPagesAllowed)`: magic check, then the
section scan, rejecting unbounded or over-limit memories. -/
def validateMemorySection (bytes : List Nat) (maxPagesAllowed : Int) :
    VResult :=
  if bytes.length < 8 ∨ bytes.getD 0 0 ≠ 0x00 ∨ bytes.getD 1 0 ≠ 0x61
      ∨ bytes.getD 2 0 ≠ 0x73 ∨ bytes.getD 3 0 ≠ 0x6D then
    .err .invalidMagic
  else validateMemLoop bytes 8 maxPagesAllowed ((bytes.length + 2) * 2147483648)

/-- `run()` instantiates a module only when the validator passes (it is
step 1, before compilation and instantiation). -/
def runInstantiates (bytes : List Nat) (maxPagesAllowed : Int) : Bool :=
  validateMemorySection bytes maxPagesAllowed = .ok

/-- Modelled from the spec: the maximum a memory "declares" is the value of
its unsigned LEB128 encoding per the WASM binary format, without the
validator's 32-bit truncation.  Used to compare the claim's reading of
"declared maximum" with what the validator computes. -/
def ulebDecode : List Nat → Nat
  | [] => 0
  | b :: rest =>
    if b &&& 0x80 = 0 then b &&& 0x7F
    else (b &&& 0x7F) + 128 * ulebDecode rest

/-- A WASM module whose single memory declares minimum 1 and maximum
2^32 pages (unsigned LEB `80 80 80 80 10`): magic and version, then a
memory section (id 5, length 8, one entry, flags 1). -/
def exWasmOverflow : List Nat :=
  [0x00, 0x61, 0x73, 0x6D, 0x01, 0x00, 0x00, 0x00,
   0x05, 0x08, 0x01, 0x01, 0x01, 0x80, 0x80, 0x80, 0x80, 0x10]

-- ---------------------------------------------------------------------------
-- Generation gateway confidence scoring and clarifications
-- (src/kernel/gateway.js).  The regex tests are alternations of literal
-- words or anchored literal phrases and are embedded as such;
-- `scoreConfidence` arithmetic is exact rational arithmetic in place of JS
-- floats (all constants are short decimals).  `generate`'s model-hint
-- extraction and prompt sanitization only determine which cleaned prompt
-- reaches the confidence gate, so the embedding starts from that cleaned
-- prompt.
-- ---------------------------------------------------------------------------

/-- ASCII lowercasing (`toLowerCase` on the ASCII prompts at issue). -/
def lowerChar (c : Char) : Char :=
  if 65 ≤ c.toNat ∧ c.toNat ≤ 90 then Char.ofNat (c.toNat + 32) else c

/-- Lowercase a string. -/
def toLowerStr (s : List Char) : List Char := s.map lowerChar

/-- Split on single whitespace characters. -/
def splitOnWs : List Char → List (List Char)
  | [] => [[]]
  | c :: cs =>
    if isWsChar c then [] :: splitOnWs cs
    else
      match splitOnWs cs with
      | [] => [[c]]
      | p :: ps => (c :: p) :: ps

/-- `prompt.trim().split(/\s+/)`: the whitespace-run-separated words; an
all-whitespace prompt gives the single empty word, as in JS. -/
def promptWords (prompt : List Char) : List (List Char) :=
  let t := jsTrim prompt
  if t = [] then [[]]
  else (splitOnWs t).filter (fun w => w ≠ [])

/-- Case-insensitive alternation-of-literals regex test. -/
def testAnySub (pats : List (List Char)) (s : List Char) : Bool :=
  pats.any (fun p => containsSub p (toLowerStr s))

/-- The four SPECIFICITY_SIGNALS alternations. -/
def SPECIFICITY_SIGNALS : List (List (List Char)) :=
  [["button", "input", "form", "list", "table", "grid", "card", "modal",
    "dropdown", "slider", "toggle"].map String.toList,
   ["timer", "counter", "clock", "calculator", "calendar", "chart", "graph",
    "todo", "note", "editor"].map String.toList,
   ["sort", "filter", "search", "drag", "resize", "animate", "save", "load",
    "export", "import"].map String.toList,
   ["sidebar", "header", "footer", "column", "row", "tab", "panel",
    "split"].map String.toList]

/-- The four CAPABILITY_HINTS alternations (`stor(?:age|e|ing)` expanded). -/
def CAPABILITY_HINTS : List (List (List Char)) :=
  [["storage", "store", "storing"].map String.toList,
   ["timer", "interval", "timeout", "countdown"].map String.toList,
   ["clipboard", "copy", "paste"].map String.toList,
   ["network", "fetch", "api", "http"].map String.toList]

/-- First VAGUE pattern:
`^(?:make|build|create)\s+(?:something|a thing|stuff|an? app)\s*$`. -/
def vaguePattern1 (t : List Char) : Bool :=
  let l := toLowerStr t
  (["make", "build", "create"].map String.toList).any (fun v =>
    v.isPrefixOf l &&
    (let rest := l.drop v.length
     let r1 := rest.dropWhile isWsChar
     decide (r1.length < rest.length) &&
     (["something", "a thing", "stuff", "a app", "an app"].map
        String.toList).any (fun o =>
       o.isPrefixOf r1 && (r1.drop o.length).all isWsChar)))

/-- Second VAGUE pattern: `^(?:do|help|can you)\s`. -/
def vaguePattern2 (t : List Char) : Bool :=
  let l := toLowerStr t
  (["do", "help", "can you"].map String.toList).any (fun v =>
    v.isPrefixOf l &&
    match (l.drop v.length).head? with
    | some c => isWsChar c
    | none => false)

/-- Third VAGUE pattern: `^(?:idk|idc|whatever|anything|surprise me)`. -/
def vaguePattern3 (t : List Char) : Bool :=
  let l := toLowerStr t
  (["idk", "idc", "whatever", "anything", "surprise me"].map
    String.toList).any (fun v => v.isPrefixOf l)

/-- `VAGUE_PATTERNS.some(p => p.test(prompt.trim()))`. -/
def isVague (prompt : List Char) : Bool :=
  vaguePattern1 (jsTrim prompt) || vaguePattern2 (jsTrim prompt)
    || vaguePattern3 (jsTrim prompt)

/-- The components and the rounded score of `scoreConfidence`. -/
structure Confidence where
  score : ℚ
  lengthScore : ℚ
  specificity : ℚ
  clarity : ℚ
  capabilities : ℚ
deriving DecidableEq, Repr

/-- `Math.round(x * 100) / 100`. -/
def jsRound100 (x : ℚ) : ℚ := (⌊x * 100 + 1 / 2⌋ : ℚ) / 100

/-- `scoreConfidence`: length, specificity, clarity, and capability-clarity
components, weighted 0.25/0.35/0.25/0.15 and rounded to two decimals. -/
def scoreConfidence (prompt : List Char) : Confidence :=
  let words := promptWords prompt
  let lengthScore : ℚ :=
    if words.length ≤ 2 then 0.2
    else if words.length ≤ 4 then 0.5
    else if words.length ≤ 8 then 0.7
    else 1
  let specificityHits := (SPECIFICITY_SIGNALS.filter
    (fun g => testAnySub g prompt)).length
  let specificity : ℚ := min ((specificityHits : ℚ) / 2) 1
  let clarity : ℚ := if isVague prompt then 0.1 else 0.8
  let capHits := (CAPABILITY_HINTS.filter
    (fun g => testAnySub g prompt)).length
  let capabilities : ℚ := if capHits > 0 then 1 else 0.5
  let total := lengthScore * 0.25 + specificity * 0.35 + clarity * 0.25
    + capabilities * 0.15
  { score := jsRound100 total, lengthScore := lengthScore,
    specificity := specificity, clarity := clarity,
    capabilities := capabilities }

/-- `generateClarifications`: up to three questions driven by word count,
missing specificity signals, and missing persistence hints, with a
fallback question when none fired. -/
def generateClarifications (prompt : List Char) : List (List Char) :=
  let lower := toLowerStr prompt
  let words := promptWords prompt
  let q1 :=
    if words.length ≤ 3 then
      ["Can you describe what the app should do in more detail?".toList]
    else []
  let q2 :=
    if ¬ SPECIFICITY_SIGNALS.any (fun g => testAnySub g prompt) then
      [("What kind of interface should it have? " ++
        "(e.g., buttons, lists, forms, charts)").toList]
    else []
  let q3 :=
    if ¬ testAnySub (["save", "store", "persist", "remember"].map
          String.toList) lower
        ∧ ¬ testAnySub (["timer", "clock", "countdown"].map
          String.toList) lower then
      ["Should it save data between sessions, or is it temporary?".toList]
    else []
  let qs := q1 ++ q2 ++ q3
  (if qs = [] then
    ["Any specific features or behavior you want to highlight?".toList]
  else qs).take 3

/-- The gateway's decision after sanitization: return a clarification
request, or proceed to provider routing and the LLM call. -/
inductive GenOutcome where
  | clarification (score : ℚ) (questions : List (List Char))
  | proceed (score : ℚ)
deriving DecidableEq, Repr

/-- The confidence gate of `generate`: with `score < 0.45` and no `force`
option, return the clarification request — the provider is never
reached. -/
def generateFromClean (clean : List Char) (force : Bool) : GenOutcome :=
  let confidence := scoreConfidence clean
  if confidence.score < 0.45 ∧ force = false then
    .clarification confidence.score (generateClarifications clean)
  else .proceed confidence.score

-- ---------------------------------------------------------------------------
-- Concrete demonstration values for the token claims: a fixed session key
-- (modelling the random session HMAC key), a fixed 32-hex-character nonce
-- (modelling `randomBytes(16).toString('hex')`), and one issued token.
-- ---------------------------------------------------------------------------

/-- A concrete 32-byte session HMAC key. -/
def exKey : List Nat := List.range 32

/-- A concrete 32-hex-character nonce. -/
def exNonce : List Char := "00112233445566778899aabbccddeeff".toList

/-- A concrete issue time (Unix seconds). -/
def demoNow : Nat := 1760000000

/-- The expiry of a token issued at `demoNow`. -/
def demoExp : Nat := demoNow + TOKEN_TTL_SECONDS

/-- A concrete token: `ui:window` for app `calc`, issued at `demoNow`. -/
def demoToken : List Char :=
  signToken exKey "calc".toList "ui:window".toList demoExp exNonce

/-- The capability-module state right after `initTokenKey()`. -/
def demoSt : CapState :=
  { hmacKey := some exKey, revocationSet := [], appTokenMap := [], appCaps := [] }

/-- The state after granting `[ui:window]` to `calc` in `demoSt`. -/
def demoStAfter : CapState :=
  { hmacKey := some exKey, revocationSet := [],
    appTokenMap := [("calc".toList, [demoToken])],
    appCaps := [("calc".toList, ["ui:window".toList])] }

/-- A token with a fixed expiry used by the mutation claims: issued for app
`calc`, capability `ui:window`, expiry 1760000000. -/
def exToken : List Char :=
  signToken exKey "calc".toList "ui:window".toList 1760000000 exNonce

/-- The payload segment of `exToken`. -/
def exPayloadB64 : List Char :=
  base64urlEncode (strBytes (printPayload
    ⟨"calc".toList, "ui:window".toList, 1760000000, exNonce⟩))

/-- The signature segment of `exToken`. -/
def exSigB64 : List Char :=
  base64urlEncode (hmacSha256 exKey (strBytes (HEADER_B64 ++ '.' :: exPayloadB64)))

/-- A fresh enabled task state for the scheduler witnesses. -/
def demoTaskFresh : TaskState :=
  ⟨true, 60000, none, none, 0, 0, 0, 0, none, 0, "2026-10-11".toList,
   none, none, []⟩

/-- A task state with a tripped circuit breaker. -/
def demoTaskTripped : TaskState :=
  ⟨false, 60000, none, none, 0, 0, 5, 3, some "circuit-breaker".toList, 0,
   "2026-10-11".toList, none, none, []⟩

/-- A WASM module with one memory, minimum 1 and maximum 16 pages. -/
def exWasmBounded : List Nat :=
  [0x00, 0x61, 0x73, 0x6D, 0x01, 0x00, 0x00, 0x00,
   0x05, 0x04, 0x01, 0x01, 0x01, 0x10]

-- ===========================================================================
-- THEOREMS
-- ===========================================================================

/-- Sanity: SHA-256 of the empty message matches the FIPS test vector. -/
theorem sha256_empty :
    sha256 [] =
      [0xe3, 0xb0, 0xc4, 0x42, 0x98, 0xfc, 0x1c, 0x14, 0x9a, 0xfb, 0xf4, 0xc8,
       0x99, 0x6f, 0xb9, 0x24, 0x27, 0xae, 0x41, 0xe4, 0x64, 0x9b, 0x93, 0x4c,
       0xa4, 0x95, 0x99, 0x1b, 0x78, 0x52, 0xb8, 0x55] := by decide

/-- Sanity: SHA-256 of "abc" matches the FIPS test vector. -/
theorem sha256_abc :
    sha256 [0x61, 0x62, 0x63] =
      [0xba, 0x78, 0x16, 0xbf, 0x8f, 0x01, 0xcf, 0xea, 0x41, 0x41, 0x40, 0xde,
       0x5d, 0xae, 0x22, 0x23, 0xb0, 0x03, 0x61, 0xa3, 0x96, 0x17, 0x7a, 0x9c,
       0xb4, 0x10, 0xff, 0x61, 0xf2, 0x00, 0x15, 0xad] := by decide

/-- Sanity: HMAC-SHA256 matches RFC 4231 test case 1. -/
theorem hmacSha256_rfc4231_case1 :
    hmacSha256 (List.replicate 20 0x0b)
      [0x48, 0x69, 0x20, 0x54, 0x68, 0x65, 0x72, 0x65] =
      [0xb0, 0x34, 0x4c, 0x61, 0xd8, 0xdb, 0x38, 0x53, 0x5c, 0xa8, 0xaf, 0xce,
       0xaf, 0x0b, 0xf1, 0x2b, 0x88, 0x1d, 0xc2, 0x00, 0xc9, 0x83, 0x3d, 0xa7,
       0x26, 0xe9, 0x37, 0x6c, 0x2e, 0x32, 0xcf, 0xf7] := by decide

/-- Every character emitted by the base64url encoder maps back to its 6-bit
value after the `-`/`_` to `+`/`/` swap. -/
theorem b64Val_b64urlToStd_b64urlChar (v : Nat) (hv : v < 64) :
    b64Val (b64urlToStd (b64urlChar v)) = some v := by
  interval_cases v <;> decide

/-- Mapping the url-to-standard swap over an encoding and reading values back
recovers exactly the encoder's 6-bit values. -/
theorem filterMap_b64Val_encode (bs : List Nat) (h : ∀ b ∈ bs, b < 256) :
    ((base64urlEncode bs).map b64urlToStd).filterMap b64Val = b64Vals bs := by
  induction bs using b64Vals.induct with
  | case1 a b c rest ih =>
      have ha : a < 256 := h a (by simp)
      have hb : b < 256 := h b (by simp)
      have hc : c < 256 := h c (by simp)
      simp [base64urlEncode, b64Vals,
        b64Val_b64urlToStd_b64urlChar _ (by omega : a / 4 < 64),
        b64Val_b64urlToStd_b64urlChar _ (by omega : (a % 4) * 16 + b / 16 < 64),
        b64Val_b64urlToStd_b64urlChar _ (by omega : (b % 16) * 4 + c / 64 < 64),
        b64Val_b64urlToStd_b64urlChar _ (by omega : c % 64 < 64),
        ih (fun x hx => h x (by simp [hx]))]
  | case2 a b =>
      have ha : a < 256 := h a (by simp)
      have hb : b < 256 := h b (by simp)
      simp [base64urlEncode, b64Vals,
        b64Val_b64urlToStd_b64urlChar _ (by omega : a / 4 < 64),
        b64Val_b64urlToStd_b64urlChar _ (by omega : (a % 4) * 16 + b / 16 < 64),
        b64Val_b64urlToStd_b64urlChar _ (by omega : (b % 16) * 4 < 64)]
  | case3 a =>
      have ha : a < 256 := h a (by simp)
      simp [base64urlEncode, b64Vals,
        b64Val_b64urlToStd_b64urlChar _ (by omega : a / 4 < 64),
        b64Val_b64urlToStd_b64urlChar _ (by omega : (a % 4) * 16 < 64)]
  | case4 => simp [base64urlEncode, b64Vals]

/-- Unpacking 6-bit groups inverts packing bytes into them. -/
theorem b64Dec_b64Vals (bs : List Nat) (h : ∀ b ∈ bs, b < 256) :
    b64Dec (b64Vals bs) = bs := by
  induction bs using b64Vals.induct with
  | case1 a b c rest ih =>
      have hb : b < 256 := h b (by simp)
      have hc : c < 256 := h c (by simp)
      simp only [b64Vals, b64Dec, List.cons.injEq]
      exact ⟨by omega, by omega, by omega, ih (fun x hx => h x (by simp [hx]))⟩
  | case2 a b =>
      have hb : b < 256 := h b (by simp)
      simp only [b64Vals, b64Dec, List.cons.injEq]
      exact ⟨by omega, by omega, trivial⟩
  | case3 a =>
      simp only [b64Vals, b64Dec, List.cons.injEq]
      exact ⟨by omega, trivial⟩
  | case4 => simp [b64Vals, b64Dec]

/-- Decoding inverts encoding: `base64urlDecode (base64urlEncode bs) = bs`
for genuine byte lists. -/
theorem base64url_roundtrip (bs : List Nat) (h : ∀ b ∈ bs, b < 256) :
    base64urlDecode (base64urlEncode bs) = bs := by
  unfold base64urlDecode bufferFromBase64
  rw [List.map_append, List.filterMap_append, filterMap_b64Val_encode bs h]
  have hrep : ∀ k : Nat,
      ((List.replicate k '=').map b64urlToStd).filterMap b64Val = [] := by
    intro k
    induction k with
    | zero => rfl
    | succ n ih => simp [List.replicate_succ, b64urlToStd, b64Val, b64Alphabet, ih]
  rw [hrep, List.append_nil, b64Dec_b64Vals bs h]

-- --- Shared byte-level lemmas -----------------------------------------------

/-- Every byte serialized from the hash state words is below 256. -/
theorem wordsToBytes_lt (ws : List Nat) : ∀ b ∈ wordsToBytes ws, b < 256 := by
  intro b hb
  simp only [wordsToBytes, List.mem_flatMap] at hb
  obtain ⟨w, -, h⟩ := hb
  simp only [List.mem_cons, List.not_mem_nil, or_false] at h
  rcases h with h | h | h | h <;> omega

/-- SHA-256 emits genuine bytes. -/
theorem sha256_mem_lt (m : List Nat) : ∀ b ∈ sha256 m, b < 256 := by
  unfold sha256; exact wordsToBytes_lt _

/-- HMAC-SHA256 emits genuine bytes. -/
theorem hmacSha256_mem_lt (k m : List Nat) : ∀ b ∈ hmacSha256 k m, b < 256 := by
  unfold hmacSha256; exact sha256_mem_lt _

/-- No 6-bit value encodes to the dot separator. -/
theorem b64urlChar_ne_dot (v : Nat) : b64urlChar v ≠ '.' := by
  unfold b64urlChar
  split
  · decide
  · split
    · decide
    · by_cases hv : v < 64
      · interval_cases v <;> decide
      · rw [List.getD_eq_default _ _ (by simp [b64Alphabet]; omega)]; decide

/-- Every character of a base64url encoding is some `b64urlChar` value. -/
theorem mem_base64urlEncode (bs : List Nat) :
    ∀ c ∈ base64urlEncode bs, ∃ v, c = b64urlChar v := by
  induction bs using base64urlEncode.induct with
  | case1 a b c rest ih =>
      intro x hx
      simp only [base64urlEncode, List.mem_cons] at hx
      rcases hx with h | h | h | h | h
      · exact ⟨_, h⟩
      · exact ⟨_, h⟩
      · exact ⟨_, h⟩
      · exact ⟨_, h⟩
      · exact ih x h
  | case2 a b => intro x hx; simp only [base64urlEncode, List.mem_cons,
      List.not_mem_nil, or_false] at hx
                 rcases hx with h | h | h <;> exact ⟨_, h⟩
  | case3 a => intro x hx; simp only [base64urlEncode, List.mem_cons,
      List.not_mem_nil, or_false] at hx
               rcases hx with h | h <;> exact ⟨_, h⟩
  | case4 => intro x hx; simp [base64urlEncode] at hx

/-- The dot separator never occurs inside a base64url encoding. -/
theorem dot_not_mem_base64urlEncode (bs : List Nat) :
    '.' ∉ base64urlEncode bs := by
  intro h
  obtain ⟨v, hv⟩ := mem_base64urlEncode bs '.' h
  exact b64urlChar_ne_dot v hv.symm

-- --- splitOnDot -------------------------------------------------------------

/-- A dotless string splits to the singleton of itself. -/
theorem splitOnDot_no_dot (s : List Char) (h : '.' ∉ s) :
    splitOnDot s = [s] := by
  induction s with
  | nil => rfl
  | cons c cs ih =>
      have hc : ¬ c = '.' := fun hc => h (by simp [hc])
      simp [splitOnDot, hc, ih (fun hm => h (by simp [hm]))]

/-- Splitting distributes over the first dot. -/
theorem splitOnDot_append (h rest : List Char) (hh : '.' ∉ h) :
    splitOnDot (h ++ '.' :: rest) = h :: splitOnDot rest := by
  induction h with
  | nil => simp [splitOnDot]
  | cons c cs ih =>
      have hc : ¬ c = '.' := fun hc => hh (by simp [hc])
      have ih' := ih (fun hm => hh (by simp [hm]))
      rw [List.cons_append, splitOnDot, if_neg hc, ih']

/-- A three-segment dotted string splits into exactly its three segments. -/
theorem splitOnDot_three (h p s : List Char)
    (hh : '.' ∉ h) (hp : '.' ∉ p) (hs : '.' ∉ s) :
    splitOnDot (h ++ '.' :: (p ++ '.' :: s)) = [h, p, s] := by
  rw [splitOnDot_append _ _ hh, splitOnDot_append _ _ hp, splitOnDot_no_dot _ hs]

-- --- JSON printing and parsing round-trip ------------------------------------

/-- Plain characters print verbatim under JSON escaping. -/
theorem jsonEscStr_plain (s : List Char) (h : plainStr s) : jsonEscStr s = s := by
  induction s with
  | nil => rfl
  | cons c cs ih =>
      obtain ⟨h1, h2, h3, h4⟩ := h c (by simp)
      simp only [jsonEscStr, List.flatMap_cons]
      rw [show jsonEscChar c = [c] by simp only [jsonEscChar]; split_ifs <;>
        first | rfl | (exfalso; omega) | (exfalso; simp_all)]
      simpa [jsonEscStr] using ih (fun x hx => h x (by simp [hx]))

/-- The code of a decimal digit character. -/
theorem digitChar_toNat (d : Nat) (h : d < 10) : (digitChar d).toNat = 48 + d := by
  interval_cases d <;> decide

/-- Every character the fuelled decimal printer emits is a decimal digit. -/
theorem natToDigitsAux_digits (fuel : Nat) :
    ∀ n, ∀ c ∈ natToDigitsAux fuel n, ∃ d, d < 10 ∧ c = digitChar d := by
  induction fuel with
  | zero => intro n c hc; simp [natToDigitsAux] at hc
  | succ f ih =>
      intro n c hc
      simp only [natToDigitsAux] at hc
      split at hc
      · simp only [List.mem_cons, List.not_mem_nil, or_false] at hc
        exact ⟨n, by omega, hc⟩
      · rcases List.mem_append.mp hc with h | h
        · exact ih _ c h
        · simp only [List.mem_cons, List.not_mem_nil, or_false] at h
          exact ⟨n % 10, by omega, h⟩

/-- Every character of a decimal representation is a decimal digit. -/
theorem natToDigits_digits (n : Nat) :
    ∀ c ∈ natToDigits n, 48 ≤ c.toNat ∧ c.toNat ≤ 57 := by
  intro c hc
  obtain ⟨d, hd, rfl⟩ := natToDigitsAux_digits _ _ c hc
  rw [digitChar_toNat d hd]; omega

/-- Dropping an exact prefix succeeds and leaves the remainder. -/
theorem dropPrefixExact_append (p rest : List Char) :
    dropPrefixExact p (p ++ rest) = some rest := by
  induction p with
  | nil => rfl
  | cons c cs ih => simp [dropPrefixExact, ih]

/-- Reading a JSON string body of plain characters stops at the closing
quote and returns the body verbatim. -/
theorem readJsonString_plain (s : List Char) (rest : List Char)
    (h : plainStr s) : readJsonString (s ++ '"' :: rest) = some (s, rest) := by
  induction s with
  | nil => simp [readJsonString, readJsonStringAux]
  | cons c cs ih =>
      obtain ⟨-, -, h3, h4⟩ := h c (by simp)
      have ih' := ih (fun x hx => h x (by simp [hx]))
      simp only [readJsonString] at ih' ⊢
      simp [readJsonStringAux, h3, h4, ih']

/-- Reading digits consumes a maximal digit run. -/
theorem readDigits_digit_append (l rest : List Char)
    (hl : ∀ c ∈ l, 48 ≤ c.toNat ∧ c.toNat ≤ 57)
    (hr : ∀ c rest2, rest = c :: rest2 → ¬ (48 ≤ c.toNat ∧ c.toNat ≤ 57)) :
    readDigits (l ++ rest) = (l.map (fun c => c.toNat - 48), rest) := by
  induction l with
  | nil =>
      cases rest with
      | nil => rfl
      | cons c rest2 => simp [readDigits, hr c rest2 rfl]
  | cons c cs ih =>
      have := hl c (by simp)
      simp [readDigits, this, ih (fun x hx => hl x (by simp [hx]))]

/-- Folding the digits of `n` back together recovers `n` (with any
accumulator, scaled by the digit count). -/
theorem foldl_natToDigitsAux (fuel : Nat) :
    ∀ n acc, n < fuel →
      ((natToDigitsAux fuel n).map (fun c => c.toNat - 48)).foldl
        (fun a d => a * 10 + d) acc
        = acc * 10 ^ (natToDigitsAux fuel n).length + n := by
  induction fuel with
  | zero => intro n acc h; omega
  | succ f ih =>
      intro n acc h
      simp only [natToDigitsAux]
      split
      · rename_i h10
        simp [digitChar_toNat n h10]
      · rename_i h10
        push_neg at h10
        have hdiv : n / 10 < f := by
          have : n / 10 < n := Nat.div_lt_self (by omega) (by omega)
          omega
        rw [List.map_append, List.foldl_append, ih (n / 10) acc hdiv]
        simp only [List.map_cons, List.map_nil, List.foldl_cons, List.foldl_nil,
          List.length_append, List.length_cons, List.length_nil]
        rw [digitChar_toNat (n % 10) (by omega)]
        have : (48 + n % 10) - 48 = n % 10 := by omega
        rw [this, pow_succ]
        have := Nat.div_add_mod n 10
        ring_nf
        omega

/-- Reading a printed natural number back, followed by a non-digit,
recovers the number. -/
theorem readNat_natToDigits (n : Nat) (c : Char) (rest : List Char)
    (hc : ¬ (48 ≤ c.toNat ∧ c.toNat ≤ 57)) :
    readNat (natToDigits n ++ c :: rest) = some (n, c :: rest) := by
  unfold readNat
  rw [readDigits_digit_append _ _ (natToDigits_digits n)
    (fun d r2 he => by cases he; exact hc)]
  have hne : natToDigits n ≠ [] := by
    unfold natToDigits natToDigitsAux
    split <;> simp
  have : (natToDigits n).map (fun c => c.toNat - 48) ≠ [] := by
    simpa using hne
  rw [if_neg this]
  have := foldl_natToDigitsAux (n + 1) n 0 (by omega)
  unfold natToDigits
  simp only [natToDigits] at this
  rw [this]
  simp

/-- Parsing inverts printing on payloads whose string fields are plain. -/
theorem parsePayload_printPayload (p : Payload)
    (ha : plainStr p.appId) (hc : plainStr p.cap) (hn : plainStr p.nonce) :
    parsePayloadJson (printPayload p) = some p := by
  obtain ⟨appId, cap, exp, nonce⟩ := p
  have ha' : plainStr appId := by simpa using ha
  have hc' : plainStr cap := by simpa using hc
  have hn' : plainStr nonce := by simpa using hn
  have hnum : ∀ X : List Char,
      readNat (natToDigits exp ++ (jsonLit4 ++ X)) = some (exp, jsonLit4 ++ X) := by
    intro X
    have h1 : jsonLit4 ++ X = ',' :: ("\"nonce\":\"".toList ++ X) := by
      simp [jsonLit4]
    rw [h1, readNat_natToDigits _ _ _ (by decide), ← h1]
  have hnonce : readJsonString (nonce ++ ['"', '\x7d']) = some (nonce, ['\x7d']) :=
    readJsonString_plain _ _ hn'
  simp only [printPayload, jsonEscStr_plain _ ha', jsonEscStr_plain _ hc',
    jsonEscStr_plain _ hn']
  unfold parsePayloadJson
  simp only [dropPrefixExact_append, readJsonString_plain _ _ ha',
    readJsonString_plain _ _ hc', hnum, hnonce]
  simp

/-- ASCII bound for every character of a canonical payload JSON text. -/
theorem printPayload_ascii (p : Payload)
    (ha : plainStr p.appId) (hc : plainStr p.cap) (hn : plainStr p.nonce) :
    ∀ c ∈ printPayload p, c.toNat < 128 := by
  obtain ⟨appId, cap, exp, nonce⟩ := p
  have ha' : plainStr appId := by simpa using ha
  have hc' : plainStr cap := by simpa using hc
  have hn' : plainStr nonce := by simpa using hn
  intro c hmem
  have hlit1 : ∀ c ∈ jsonLit1, c.toNat < 128 := by decide
  have hlit2 : ∀ c ∈ jsonLit2, c.toNat < 128 := by decide
  have hlit3 : ∀ c ∈ jsonLit3, c.toNat < 128 := by decide
  have hlit4 : ∀ c ∈ jsonLit4, c.toNat < 128 := by decide
  simp only [printPayload, jsonEscStr_plain _ ha', jsonEscStr_plain _ hc',
    jsonEscStr_plain _ hn', List.mem_append, List.mem_cons, List.not_mem_nil,
    or_false, or_assoc] at hmem
  rcases hmem with h | h | h | h | h | h | h | h | h | h | h | h
  · exact hlit1 c h
  · exact (ha' c h).2.1
  · subst h; decide
  · exact hlit2 c h
  · exact (hc' c h).2.1
  · subst h; decide
  · exact hlit3 c h
  · have := natToDigits_digits exp c h; omega
  · exact hlit4 c h
  · exact (hn' c h).2.1
  · subst h; decide
  · subst h; decide

/-- Re-decoding the encoded characters of a string gives the string back. -/
theorem bytesToStr_strBytes (s : List Char) : bytesToStr (strBytes s) = s := by
  simp [bytesToStr, strBytes, List.map_map, Function.comp_def, Char.ofNat_toNat]

-- --- The master verification lemma ------------------------------------------

/-- Verifying a token signed under the same session key walks the full happy
path of `verifyToken` and is decided entirely by expiry and revocation. -/
theorem verifyToken_signToken (k : List Nat) (appId cap nonce : List Char)
    (exp now : Nat) (rev : List (List Char))
    (ha : plainStr appId) (hc : plainStr cap) (hn : plainStr nonce) :
    verifyToken (some k) now rev (signToken k appId cap exp nonce) =
      (if now > exp then { valid := false, error := some "expired" }
       else if nonce ∈ rev then { valid := false, error := some "revoked" }
       else { valid := true, payload := some ⟨appId, cap, exp, nonce⟩ } :
        VerifyResult) := by
  have hP : '.' ∉ base64urlEncode
      (strBytes (printPayload ⟨appId, cap, exp, nonce⟩)) :=
    dot_not_mem_base64urlEncode _
  have hH : '.' ∉ HEADER_B64 := by
    unfold HEADER_B64; exact dot_not_mem_base64urlEncode _
  have hS : '.' ∉ base64urlEncode (hmacSha256 k
      (strBytes (HEADER_B64 ++ '.' ::
        base64urlEncode (strBytes (printPayload ⟨appId, cap, exp, nonce⟩))))) :=
    dot_not_mem_base64urlEncode _
  have hsplit : splitOnDot (signToken k appId cap exp nonce) =
      [HEADER_B64,
       base64urlEncode (strBytes (printPayload ⟨appId, cap, exp, nonce⟩)),
       base64urlEncode (hmacSha256 k (strBytes (HEADER_B64 ++ '.' ::
         base64urlEncode (strBytes (printPayload ⟨appId, cap, exp, nonce⟩)))))] := by
    unfold signToken
    rw [show ∀ x y z : List Char, (x ++ '.' :: y) ++ '.' :: z
          = x ++ '.' :: (y ++ '.' :: z) from fun x y z => by simp]
    exact splitOnDot_three _ _ _ hH hP hS
  have hstep : verifyToken (some k) now rev (signToken k appId cap exp nonce) =
      verifyBody k now rev HEADER_B64
        (base64urlEncode (strBytes (printPayload ⟨appId, cap, exp, nonce⟩)))
        (base64urlEncode (hmacSha256 k (strBytes (HEADER_B64 ++ '.' ::
          base64urlEncode (strBytes (printPayload ⟨appId, cap, exp, nonce⟩)))))) := by
    unfold verifyToken
    rw [hsplit]
  rw [hstep]
  simp only [verifyBody]
  rw [base64url_roundtrip _ (hmacSha256_mem_lt _ _)]
  rw [if_neg (fun hcon => hcon rfl), if_neg (fun hcon => hcon rfl)]
  rw [base64url_roundtrip _
    (fun b hb => by
      obtain ⟨c, hcmem, rfl⟩ := List.mem_map.mp hb
      exact lt_trans (printPayload_ascii _ ha hc hn c hcmem) (by omega))]
  rw [bytesToStr_strBytes, parsePayload_printPayload _ ha hc hn]

/-- A signed token splits into its three segments. -/
theorem splitOnDot_signToken (k : List Nat) (appId cap nonce : List Char)
    (exp : Nat) :
    splitOnDot (signToken k appId cap exp nonce) =
      [HEADER_B64,
       base64urlEncode (strBytes (printPayload ⟨appId, cap, exp, nonce⟩)),
       base64urlEncode (hmacSha256 k (strBytes (HEADER_B64 ++ '.' ::
         base64urlEncode (strBytes (printPayload ⟨appId, cap, exp, nonce⟩)))))] := by
  have hH : '.' ∉ HEADER_B64 := by
    unfold HEADER_B64; exact dot_not_mem_base64urlEncode _
  unfold signToken
  rw [show ∀ x y z : List Char, (x ++ '.' :: y) ++ '.' :: z
        = x ++ '.' :: (y ++ '.' :: z) from fun x y z => by simp]
  exact splitOnDot_three _ _ _ hH (dot_not_mem_base64urlEncode _)
    (dot_not_mem_base64urlEncode _)

/-- Revoking a token issued by `signToken` adds exactly its nonce to the
revocation set. -/
theorem revokeToken_signToken (k : List Nat) (appId cap nonce : List Char)
    (exp : Nat) (rev : List (List Char))
    (ha : plainStr appId) (hc : plainStr cap) (hn : plainStr nonce)
    (hne : nonce ≠ []) :
    revokeToken rev (signToken k appId cap exp nonce) = nonce :: rev := by
  unfold revokeToken
  rw [splitOnDot_signToken]
  simp only [List.get?]
  rw [base64url_roundtrip _
    (fun b hb => by
      obtain ⟨c, hcmem, rfl⟩ := List.mem_map.mp hb
      exact lt_trans (printPayload_ascii _ ha hc hn c hcmem) (by omega))]
  rw [bytesToStr_strBytes, parsePayload_printPayload _ ha hc hn]
  simp [hne]

/-- Revocation only ever grows the revocation set. -/
theorem revokeToken_subset (rev : List (List Char)) (t : List Char) :
    rev ⊆ revokeToken rev t := by
  unfold revokeToken
  split
  · exact fun a ha => ha
  · split
    · exact fun a ha => ha
    · split
      · exact fun a ha => ha
      · exact fun a ha => List.mem_cons_of_mem _ ha

/-- Folding revocation over a token list only ever grows the set. -/
theorem foldl_revokeToken_subset (tokens : List (List Char))
    (rev : List (List Char)) : rev ⊆ tokens.foldl revokeToken rev := by
  induction tokens generalizing rev with
  | nil => exact fun a ha => ha
  | cons u rest ih =>
      intro a ha
      exact ih (revokeToken rev u) (revokeToken_subset rev u ha)

/-- A token whose revocation always prepends its nonce lands that nonce in
the set after folding over any list containing the token. -/
theorem mem_foldl_revokeToken (tokens : List (List Char))
    (rev : List (List Char)) (t n : List Char) (ht : t ∈ tokens)
    (hrt : ∀ r, revokeToken r t = n :: r) :
    n ∈ tokens.foldl revokeToken rev := by
  induction tokens generalizing rev with
  | nil => cases ht
  | cons u rest ih =>
      rcases List.mem_cons.mp ht with rfl | hmem
      · exact foldl_revokeToken_subset rest (revokeToken rev t)
          (by rw [hrt]; exact List.mem_cons_self _ _)
      · first
        | exact ih hmem _
        | exact ih _ hmem

/-- Setting then getting an association yields the set value. -/
theorem getAssoc_setAssoc {α β : Type} [DecidableEq α]
    (m : List (α × β)) (k : α) (v : β) :
    getAssoc (setAssoc m k v) k = some v := by
  induction m with
  | nil => simp [setAssoc, getAssoc]
  | cons e es ih =>
      unfold setAssoc
      by_cases he : e.1 = k
      · rw [if_pos (by simp [he])]
        simp only [List.map_cons, if_pos he]
        simp [getAssoc]
      · have hany : (e :: es).any (fun x => x.1 = k) = es.any (fun x => x.1 = k) := by
          simp [he]
        rw [hany]
        by_cases hes : es.any (fun x => x.1 = k) = true
        · rw [if_pos hes]
          simp only [List.map_cons, if_neg he]
          have ih2 := ih
          unfold setAssoc at ih2
          rw [if_pos hes] at ih2
          simpa [getAssoc, List.find?_cons, he] using ih2
        · rw [if_neg hes]
          have ih2 := ih
          unfold setAssoc at ih2
          rw [if_neg hes] at ih2
          simpa [getAssoc, List.find?_cons, he] using ih2

/-- C1: for every grant of a capability set to an appId, every token issued
by that grant verifies as valid immediately after the grant, and verifies
as invalid after `revokeToken(t)` and after `revokeAll(appId)`. -/
theorem C1_token_lifecycle (st : CapState) (k : List Nat) (appId : List Char)
    (caps nonces : List (List Char)) (now : Nat) (st' : CapState)
    (tokens : List (List Char))
    (hkey : st.hmacKey = some k)
    (happ : plainStr appId)
    (hnonce : ∀ n ∈ nonces, plainStr n ∧ n ≠ [])
    (hfresh : ∀ n ∈ nonces, n ∉ st.revocationSet)
    (hgrant : grantCapabilities st appId caps now nonces = some (st', tokens)) :
    ∀ t ∈ tokens,
      (verifyToken (some k) now st'.revocationSet t).valid = true ∧
      (∀ now2,
        (verifyToken (some k) now2 (revokeToken st'.revocationSet t) t).valid
          = false) ∧
      (∀ now2,
        (verifyToken (some k) now2 (revokeAll st' appId).revocationSet t).valid
          = false) := by
  have hCT : ∀ c ∈ CAPABILITY_TYPES, plainStr c := by decide
  unfold grantCapabilities at hgrant
  rw [hkey] at hgrant
  simp only [Option.some.injEq, Prod.mk.injEq] at hgrant
  obtain ⟨hst', htok⟩ := hgrant
  intro t ht
  subst htok
  obtain ⟨⟨cap, nonce⟩, hpair, rfl⟩ := List.mem_map.mp ht
  obtain ⟨hcapmem, hnoncemem⟩ := List.of_mem_zip hpair
  have hcap : plainStr cap := hCT cap (by
    have := (List.mem_filter.mp hcapmem).2
    simpa using this)
  have hplainN := (hnonce nonce hnoncemem).1
  have hneN := (hnonce nonce hnoncemem).2
  have hrevSet : st'.revocationSet = st.revocationSet := by rw [← hst']
  have hmaster := fun now2 rev =>
    verifyToken_signToken k appId cap nonce (now + TOKEN_TTL_SECONDS) now2 rev
      happ hcap hplainN
  refine ⟨?_, ?_, ?_⟩
  · rw [hmaster now st'.revocationSet]
    rw [if_neg (by omega), if_neg (by rw [hrevSet]; exact hfresh nonce hnoncemem)]
  · intro now2
    rw [hmaster now2 _]
    have hmem : nonce ∈ revokeToken st'.revocationSet
        (signToken k appId cap (now + TOKEN_TTL_SECONDS) nonce) := by
      rw [revokeToken_signToken _ _ _ _ _ _ happ hcap hplainN hneN]
      exact List.mem_cons_self _ _
    by_cases h1 : now2 > now + TOKEN_TTL_SECONDS
    · rw [if_pos h1]
    · rw [if_neg h1, if_pos hmem]
  · intro now2
    rw [hmaster now2 _]
    have htoks : getAssoc st'.appTokenMap appId =
        some ((List.zip (caps.filter (fun c => c ∈ CAPABILITY_TYPES)) nonces).map
          (fun p => signToken k appId p.1 (now + TOKEN_TTL_SECONDS) p.2)) := by
      rw [← hst']
      exact getAssoc_setAssoc _ _ _
    have hmem : nonce ∈ (revokeAll st' appId).revocationSet := by
      unfold revokeAll
      rw [htoks]
      exact mem_foldl_revokeToken _ _ _ _ ht
        (fun r => revokeToken_signToken _ _ _ _ _ _ happ hcap hplainN hneN)
    by_cases h1 : now2 > now + TOKEN_TTL_SECONDS
    · rw [if_pos h1]
    · rw [if_neg h1, if_pos hmem]

/-- Witness for C1: the concrete grant of `ui:window` to `calc` issues a
token that verifies, and that fails verification after `revokeToken` and
after `revokeAll`. -/
theorem C1_token_lifecycle_witness :
    (verifyToken (some exKey) demoNow demoStAfter.revocationSet demoToken).valid
      = true ∧
    (verifyToken (some exKey) demoNow
      (revokeToken demoStAfter.revocationSet demoToken) demoToken).valid
      = false ∧
    (verifyToken (some exKey) demoNow
      (revokeAll demoStAfter "calc".toList).revocationSet demoToken).valid
      = false := by
  have h := C1_token_lifecycle demoSt exKey "calc".toList
    ["ui:window".toList] [exNonce] demoNow demoStAfter [demoToken]
    rfl (by decide) (by decide) (by simp [demoSt]) rfl demoToken (by simp)
  exact ⟨h.1, h.2.1 demoNow, h.2.2 demoNow⟩

-- --- C2: token mutations ----------------------------------------------------

/-- A token that splits into three dotless segments verifies through
`verifyBody` on those segments. -/
theorem verifyToken_three (k : List Nat) (now : Nat) (rev : List (List Char))
    (h p s : List Char) (hh : '.' ∉ h) (hp : '.' ∉ p) (hs : '.' ∉ s) :
    verifyToken (some k) now rev (h ++ '.' :: (p ++ '.' :: s)) =
      verifyBody k now rev h p s := by
  unfold verifyToken
  rw [splitOnDot_three _ _ _ hh hp hs]

/-- A string that does not split into exactly three segments is rejected as
malformed. -/
theorem verifyToken_malformed (k : List Nat) (now : Nat)
    (rev : List (List Char)) (m : List Char)
    (hm : (splitOnDot m).length ≠ 3) :
    verifyToken (some k) now rev m
      = { valid := false, error := some "malformed" } := by
  unfold verifyToken
  rcases hsp : splitOnDot m with - | ⟨a, - | ⟨b, - | ⟨c, - | ⟨d, t⟩⟩⟩⟩ <;>
    first
      | rfl
      | (exfalso; rw [hsp] at hm; simp at hm)

/-- C2 (amended): mutations of a signed token are decided as follows — a
token that no longer splits into three segments is `malformed`; a changed
signature segment whose decode differs from the HMAC is `invalid_signature`;
a changed header or payload segment is `invalid_signature` whenever the
recomputed HMAC differs from the embedded signature; but a signature-segment
change whose base64url decode is unchanged (a mutation confined to the
ignored padding bits) still verifies as valid. -/
theorem C2_token_mutation (k : List Nat) (appId cap nonce : List Char)
    (exp now : Nat) (rev : List (List Char))
    (ha : plainStr appId) (hc : plainStr cap) (hn : plainStr nonce) :
    (∀ m : List Char, (splitOnDot m).length ≠ 3 →
       verifyToken (some k) now rev m
         = { valid := false, error := some "malformed" }) ∧
    (∀ s2 : List Char, '.' ∉ s2 →
       base64urlDecode s2 ≠ hmacSha256 k (strBytes (HEADER_B64 ++ '.' ::
           base64urlEncode (strBytes (printPayload ⟨appId, cap, exp, nonce⟩)))) →
       verifyToken (some k) now rev (HEADER_B64 ++ '.' ::
           (base64urlEncode (strBytes (printPayload ⟨appId, cap, exp, nonce⟩))
             ++ '.' :: s2))
         = { valid := false, error := some "invalid_signature" }) ∧
    (∀ h2 p2 : List Char, '.' ∉ h2 → '.' ∉ p2 →
       hmacSha256 k (strBytes (h2 ++ '.' :: p2))
           ≠ hmacSha256 k (strBytes (HEADER_B64 ++ '.' ::
             base64urlEncode (strBytes (printPayload ⟨appId, cap, exp, nonce⟩)))) →
       verifyToken (some k) now rev (h2 ++ '.' :: (p2 ++ '.' ::
           base64urlEncode (hmacSha256 k (strBytes (HEADER_B64 ++ '.' ::
             base64urlEncode (strBytes (printPayload ⟨appId, cap, exp, nonce⟩)))))))
         = { valid := false, error := some "invalid_signature" }) ∧
    (∀ s2 : List Char, '.' ∉ s2 →
       base64urlDecode s2 = hmacSha256 k (strBytes (HEADER_B64 ++ '.' ::
           base64urlEncode (strBytes (printPayload ⟨appId, cap, exp, nonce⟩)))) →
       now ≤ exp → nonce ∉ rev →
       (verifyToken (some k) now rev (HEADER_B64 ++ '.' ::
           (base64urlEncode (strBytes (printPayload ⟨appId, cap, exp, nonce⟩))
             ++ '.' :: s2))).valid = true) := by
  have hH : '.' ∉ HEADER_B64 := by
    unfold HEADER_B64; exact dot_not_mem_base64urlEncode _
  have hP : '.' ∉ base64urlEncode
      (strBytes (printPayload ⟨appId, cap, exp, nonce⟩)) :=
    dot_not_mem_base64urlEncode _
  have hparse : parsePayloadJson (bytesToStr (base64urlDecode
      (base64urlEncode (strBytes (printPayload ⟨appId, cap, exp, nonce⟩)))))
      = some ⟨appId, cap, exp, nonce⟩ := by
    rw [base64url_roundtrip _
      (fun b hb => by
        obtain ⟨c, hcmem, rfl⟩ := List.mem_map.mp hb
        exact lt_trans (printPayload_ascii _ ha hc hn c hcmem) (by omega))]
    rw [bytesToStr_strBytes, parsePayload_printPayload _ ha hc hn]
  refine ⟨fun m hm => verifyToken_malformed k now rev m hm, ?_, ?_, ?_⟩
  · intro s2 hs2 hne
    rw [verifyToken_three _ _ _ _ _ _ hH hP hs2]
    unfold verifyBody
    by_cases hlen : (base64urlDecode s2).length =
        (hmacSha256 k (strBytes (HEADER_B64 ++ '.' ::
          base64urlEncode (strBytes (printPayload ⟨appId, cap, exp, nonce⟩))))).length
    · rw [if_neg (by simpa using hlen), if_pos hne]
    · rw [if_pos hlen]
  · intro h2 p2 hh2 hp2 hne
    rw [verifyToken_three _ _ _ _ _ _ hh2 hp2 (dot_not_mem_base64urlEncode _)]
    unfold verifyBody
    rw [base64url_roundtrip _ (hmacSha256_mem_lt _ _)]
    by_cases hlen : (hmacSha256 k (strBytes (HEADER_B64 ++ '.' ::
        base64urlEncode (strBytes (printPayload ⟨appId, cap, exp, nonce⟩))))).length =
        (hmacSha256 k (strBytes (h2 ++ '.' :: p2))).length
    · rw [if_neg (by simpa using hlen), if_pos (fun he => hne he.symm)]
    · rw [if_pos hlen]
  · intro s2 hs2 hdec hnow hrev
    rw [verifyToken_three _ _ _ _ _ _ hH hP hs2]
    unfold verifyBody
    rw [hdec]
    rw [if_neg (fun hcon => hcon rfl), if_neg (fun hcon => hcon rfl), hparse]
    have h1 : ¬ now > exp := by omega
    simp [h1, hrev]

/-- Witness for the amended C2 theorem: concrete signature-segment mutations
of `exToken` — one that changes the decoded bytes is rejected with
`invalid_signature`, and the padding-bit mutation keeps the token valid. -/
theorem C2_token_mutation_witness :
    (verifyToken (some exKey) demoNow []
      (HEADER_B64 ++ '.' :: (exPayloadB64 ++ '.' :: mutateBit exSigB64 42 0))
      = { valid := false, error := some "invalid_signature" }) ∧
    (verifyToken (some exKey) demoNow []
      (HEADER_B64 ++ '.' :: (exPayloadB64 ++ '.' :: mutateBit exSigB64 42 1))).valid
      = true := by
  have h := C2_token_mutation exKey "calc".toList "ui:window".toList exNonce
    1760000000 demoNow [] (by decide) (by decide) (by decide)
  exact ⟨h.2.1 (mutateBit exSigB64 42 0) (by decide) (by decide),
         h.2.2.2 (mutateBit exSigB64 42 1) (by decide) (by decide)
           (by decide) (by decide)⟩

-- --- C3: analyzer gate ------------------------------------------------------

/-- C3: `analyze(c).passed` is true iff `criticalCount == 0`; any CRITICAL
rule match outside exempt lines forces `passed == false`; if every CRITICAL
match lies on an exempt line (in particular if there is none), `passed ==
true`.  Quantified over every rule set, hence over the concrete RULES. -/
theorem C3_analyzer_pass_iff_no_critical (rules : List Rule)
    (code : List Char) :
    ((analyzeWith rules code).passed = true ↔
      (analyzeWith rules code).criticalCount = 0) ∧
    (∀ r ∈ rules, r.severity = Severity.CRITICAL →
      ∀ idx ∈ r.pattern code,
        analyzeSkipLine (trimmedLineAt code idx) = false →
        (analyzeWith rules code).passed = false) ∧
    ((∀ r ∈ rules, r.severity = Severity.CRITICAL →
       ∀ idx ∈ r.pattern code,
        analyzeSkipLine (trimmedLineAt code idx) = true) →
      (analyzeWith rules code).passed = true) := by
  refine ⟨?_, ?_, ?_⟩
  · simp [analyzeWith, runRules]
  · intro r hr hsev idx hidx hskip
    have hf : (⟨r.id, r.severity, countNewlines (code.take idx) + 1,
          (trimmedLineAt code idx).take 120⟩ : Finding)
        ∈ rules.flatMap
            (fun r => (r.pattern code).filterMap (findingAt analyzeSkipLine code r)) := by
      refine List.mem_flatMap.mpr ⟨r, hr, List.mem_filterMap.mpr ⟨idx, hidx, ?_⟩⟩
      unfold findingAt
      simp [hskip]
    have hmemf : (⟨r.id, r.severity, countNewlines (code.take idx) + 1,
          (trimmedLineAt code idx).take 120⟩ : Finding) ∈
        (rules.flatMap
          (fun r => (r.pattern code).filterMap (findingAt analyzeSkipLine code r))).filter
            (fun f => f.severity = Severity.CRITICAL) :=
      List.mem_filter.mpr ⟨hf, by simp [hsev]⟩
    have hlen := List.length_pos.mpr (List.ne_nil_of_mem hmemf)
    have hne : ((rules.flatMap
        (fun r => (r.pattern code).filterMap (findingAt analyzeSkipLine code r))).filter
          (fun f => f.severity = Severity.CRITICAL)).length ≠ 0 := by omega
    simp [analyzeWith, runRules, hne]
  · intro hall
    have hnil : (rules.flatMap
        (fun r => (r.pattern code).filterMap (findingAt analyzeSkipLine code r))).filter
          (fun f => f.severity = Severity.CRITICAL) = [] := by
      rw [List.filter_eq_nil_iff]
      intro f hfmem
      obtain ⟨r, hr, hf2⟩ := List.mem_flatMap.mp hfmem
      obtain ⟨idx, hidx, hfa⟩ := List.mem_filterMap.mp hf2
      unfold findingAt at hfa
      cases hsev : r.severity with
      | CRITICAL =>
          simp [hall r hr hsev idx hidx] at hfa
      | WARNING =>
          by_cases hskip : analyzeSkipLine (trimmedLineAt code idx) = true
          · simp [hskip] at hfa
          · rw [Bool.not_eq_true] at hskip
            simp only [hskip, Bool.false_eq_true, if_false, Option.some.injEq] at hfa
            rw [← hfa]
            simp [hsev]
    simp [analyzeWith, runRules, hnil]

/-- Witness for C3: a concrete critical `eval(` finding fails the analysis,
and clean code passes. -/
theorem C3_analyzer_witness :
    (analyzeWith [demoEvalRule] "x = eval(1)".toList).passed = false ∧
    (analyzeWith [demoEvalRule] "plain".toList).passed = true := by
  constructor
  · exact (C3_analyzer_pass_iff_no_critical [demoEvalRule] "x = eval(1)".toList).2.1
      demoEvalRule (by simp) rfl 4 (by decide) (by decide)
  · exact (C3_analyzer_pass_iff_no_critical [demoEvalRule] "plain".toList).2.2
      (by decide)

-- --- C4: storage quota rollback ---------------------------------------------

/-- C4 (code bug): when `storageSet` fails the quota check on a key that
already had a value, the "rollback" `store.data.delete(key)` erases the old
value instead of restoring it — the failing `set` mutates the store.  Here
key `k` held `"a"`; after the failing oversized write, `storageGet`
returns null instead of `"a"`. -/
theorem C4_quota_failure_mutates_store :
    (storageSet [("k".toList, StoreVal.vstr "a".toList)] "k".toList
      (StoreVal.vstr (List.replicate 5242880 'x'))).2 = false ∧
    storageGet [("k".toList, StoreVal.vstr "a".toList)] "k".toList
      = some (StoreVal.vstr "a".toList) ∧
    storageGet
      (storageSet [("k".toList, StoreVal.vstr "a".toList)] "k".toList
        (StoreVal.vstr (List.replicate 5242880 'x'))).1 "k".toList
      = none := by
  have hesc : jsonEscStr (List.replicate 5242880 'x')
      = List.replicate 5242880 'x' :=
    jsonEscStr_plain _ (fun c hc => by rw [List.eq_of_mem_replicate hc]; decide)
  have hbiglen :
      (stringifyVal (StoreVal.vstr (List.replicate 5242880 'x'))).length
        = 5242882 := by
    show ('"' :: (jsonEscStr (List.replicate 5242880 'x') ++ ['"'])).length
      = 5242882
    rw [hesc, List.length_cons, List.length_append, List.length_replicate]
    decide
  have hsingle : ∀ (k : List Char) (v : StoreVal),
      calcSize [(k, v)]
        = 2 + ('"' :: (jsonEscStr k ++ ['"'])).length
            + (stringifyVal v).length + 4 := fun k v => rfl
  have hsetS : ∀ (k : List Char) (v0 v : StoreVal),
      setAssoc [(k, v0)] k v = [(k, v)] := by
    intro k v0 v; simp [setAssoc]
  have hdelS : ∀ (k : List Char) (v : StoreVal),
      delAssoc [(k, v)] k = [] := by
    intro k v; simp [delAssoc]
  have hover : calcSize (setAssoc [("k".toList, StoreVal.vstr "a".toList)]
      "k".toList (StoreVal.vstr (List.replicate 5242880 'x')))
      > DEFAULT_QUOTA := by
    rw [hsetS, hsingle, hbiglen,
      show ('"' :: (jsonEscStr "k".toList ++ ['"'])).length = 3 by decide]
    decide
  have hfail : storageSet [("k".toList, StoreVal.vstr "a".toList)] "k".toList
      (StoreVal.vstr (List.replicate 5242880 'x'))
      = (delAssoc (setAssoc [("k".toList, StoreVal.vstr "a".toList)]
          "k".toList (StoreVal.vstr (List.replicate 5242880 'x'))) "k".toList,
         false) := by
    unfold storageSet
    rw [if_pos hover]
  refine ⟨by rw [hfail], by decide, ?_⟩
  rw [hfail, hsetS, hdelS]
  rfl


-- --- C5: storage path sanitization ------------------------------------------

/-- Every character of a sanitized appId is in the safe set. -/
theorem sanitizeAppId_safe (s : List Char) :
    ∀ c ∈ sanitizeAppId s, appIdSafeChar c = true := by
  intro c hc
  obtain ⟨c0, -, rfl⟩ := List.mem_map.mp hc
  by_cases h : appIdSafeChar c0 = true
  · simp [h]
  · rw [Bool.not_eq_true] at h
    simp only [h, Bool.false_eq_true, if_false]
    decide

/-- C5 (counterexample): sanitizing `../../../etc` yields nine underscores
(one per replaced character), not the six the claim states. -/
theorem C5_counterexample :
    sanitizeAppId "../../../etc".toList ≠ "______etc".toList ∧
    sanitizeAppId "../../../etc".toList = "_________etc".toList := by
  constructor <;> decide

/-- C5 (amended): all storage writes for an app go to
`<data_root>/apps/<sanitized appId>/store.json`, the sanitized segment
contains only `[a-zA-Z0-9_-]` (in particular no `/` and no `.`, so it
cannot traverse out of the data root), and
`storageSet("../../../etc", …)` writes only under
`<data_root>/apps/_________etc/` — nine underscores. -/
theorem C5_sanitized_paths (dataRoot : List (List Char)) (appId : List Char) :
    storePathSegs dataRoot appId
      = dataRoot ++ [sanitizeAppId appId, "store.json".toList] ∧
    (∀ c ∈ sanitizeAppId appId, appIdSafeChar c = true) ∧
    (∀ c ∈ sanitizeAppId appId, c ≠ '/' ∧ c ≠ '.') ∧
    storePathSegs dataRoot "../../../etc".toList
      = dataRoot ++ ["_________etc".toList, "store.json".toList] := by
  refine ⟨by simp [storePathSegs, appDirSegs], sanitizeAppId_safe appId, ?_, ?_⟩
  · intro c hc
    have hsafe := sanitizeAppId_safe appId c hc
    constructor <;> rintro rfl <;> simp [appIdSafeChar] at hsafe
  · simp only [storePathSegs, appDirSegs]
    rw [show sanitizeAppId "../../../etc".toList = "_________etc".toList by decide]
    simp

/-- Witness for C5 at the traversal appId: the sanitized segment's first
character is safe, and the store path lands under `_________etc`. -/
theorem C5_sanitized_paths_witness :
    appIdSafeChar '_' = true ∧
    storePathSegs ["apps".toList] "../../../etc".toList
      = ["apps".toList, "_________etc".toList, "store.json".toList] := by
  refine ⟨(C5_sanitized_paths ["apps".toList] "../../../etc".toList).2.1
      '_' (by decide), ?_⟩
  have h := (C5_sanitized_paths ["apps".toList] "../../../etc".toList).2.2.2
  simpa using h

-- --- C6: registry publish idempotence ---------------------------------------

/-- A successful association lookup comes from a stored pair. -/
theorem getAssoc_eq_some_mem {α β : Type} [DecidableEq α]
    {m : List (α × β)} {k : α} {v : β} (h : getAssoc m k = some v) :
    (k, v) ∈ m := by
  unfold getAssoc at h
  obtain ⟨pair, hfind, hsnd⟩ := Option.map_eq_some'.mp h
  have hmem := List.mem_of_find?_eq_some hfind
  have hkey := List.find?_some hfind
  simp only [decide_eq_true_eq] at hkey
  have : pair = (k, v) := by
    obtain ⟨a, b⟩ := pair
    simp only at hkey hsnd
    rw [hkey, hsnd]
  rwa [this] at hmem

/-- Publishing stores the returned entry at the content hash, with the
entry's hash field equal to the content hash. -/
theorem publishApp_get (apps : Registry) (code : List Nat) (now : Nat)
    (hinv : RegistryInv apps) :
    getApp (publishApp apps code now).1 (contentHash code)
        = some (publishApp apps code now).2.entry ∧
    (publishApp apps code now).2.entry.hash = contentHash code ∧
    (publishApp apps code now).2.hash = contentHash code := by
  unfold publishApp getApp
  cases h : getAssoc apps (contentHash code) with
  | none =>
      simp only [h]
      exact ⟨getAssoc_setAssoc _ _ _, trivial, trivial⟩
  | some e =>
      simp only [h]
      refine ⟨getAssoc_setAssoc _ _ _, ?_, trivial⟩
      have := hinv (contentHash code, e) (getAssoc_eq_some_mem h)
      simpa using this

/-- C6: publish is idempotent by content hash — the published entry sits at
`hash(c)` (the first 16 hex characters of SHA-256) with `entry.hash =
hash(c)`; republishing the same code returns `existing = true` with the
same hash and bumps `launches` by one; code whose hash is not yet present
creates a fresh entry with `launches = 1`. -/
theorem C6_publish_idempotent (apps : Registry) (code : List Nat)
    (now1 now2 : Nat) (hinv : RegistryInv apps) :
    getApp (publishApp apps code now1).1 (contentHash code)
        = some (publishApp apps code now1).2.entry ∧
    (publishApp apps code now1).2.entry.hash = contentHash code ∧
    (publishApp (publishApp apps code now1).1 code now2).2.existing = true ∧
    (publishApp (publishApp apps code now1).1 code now2).2.hash
        = (publishApp apps code now1).2.hash ∧
    (publishApp (publishApp apps code now1).1 code now2).2.entry.launches
        = (publishApp apps code now1).2.entry.launches + 1 ∧
    (∀ code2 now3, getApp apps (contentHash code2) = none →
      (publishApp apps code2 now3).2.existing = false ∧
      (publishApp apps code2 now3).2.entry.launches = 1 ∧
      (publishApp apps code2 now3).2.entry.hash = contentHash code2) := by
  obtain ⟨hget, hhash, hph⟩ := publishApp_get apps code now1 hinv
  have hsecond :
      publishApp (publishApp apps code now1).1 code now2
        = (setAssoc (publishApp apps code now1).1 (contentHash code)
            { (publishApp apps code now1).2.entry with
                launches := (publishApp apps code now1).2.entry.launches + 1 },
           ⟨contentHash code, true,
            { (publishApp apps code now1).2.entry with
                launches := (publishApp apps code now1).2.entry.launches + 1 }⟩) := by
    unfold getApp at hget
    generalize hr : publishApp apps code now1 = r1 at hget ⊢
    unfold publishApp
    simp only [hget]
  refine ⟨hget, hhash, ?_, ?_, ?_, ?_⟩
  · rw [hsecond]
  · rw [hsecond, hph]
  · rw [hsecond]
  · intro code2 now3 hnone
    unfold getApp at hnone
    unfold publishApp
    simp only [hnone]
    refine ⟨?_, ?_, ?_⟩ <;> first | trivial | rfl

/-- Witness for C6: publishing `"abc"` into an empty registry and again. -/
theorem C6_publish_idempotent_witness :
    (publishApp ([] : Registry) [0x61, 0x62, 0x63] 1000).2.existing = false ∧
    (publishApp ([] : Registry) [0x61, 0x62, 0x63] 1000).2.hash
      = "ba7816bf8f01cfea".toList ∧
    (publishApp (publishApp ([] : Registry) [0x61, 0x62, 0x63] 1000).1
      [0x61, 0x62, 0x63] 2000).2.existing = true ∧
    (publishApp (publishApp ([] : Registry) [0x61, 0x62, 0x63] 1000).1
      [0x61, 0x62, 0x63] 2000).2.entry.launches = 2 := by
  have h := C6_publish_idempotent [] [0x61, 0x62, 0x63] 1000 2000
    (by intro p hp; cases hp)
  refine ⟨(h.2.2.2.2.2 [0x61, 0x62, 0x63] 1000 rfl).1, by decide, h.2.2.1, ?_⟩
  rw [h.2.2.2.2.1, (h.2.2.2.2.2 [0x61, 0x62, 0x63] 1000 rfl).2.1]

-- --- C7: scheduler circuit breaker ------------------------------------------

/-- Rolling the daily budget touches only the LLM-call bookkeeping. -/
theorem resetDailyBudget_fields (today : List Char) (ts : TaskState) :
    (resetDailyBudget today ts).consecutiveErrors = ts.consecutiveErrors ∧
    (resetDailyBudget today ts).enabled = ts.enabled ∧
    (resetDailyBudget today ts).disabledReason = ts.disabledReason := by
  unfold resetDailyBudget
  split <;> exact ⟨rfl, rfl, rfl⟩

/-- A manual run with the lock free and no LLM requirement always executes
the handler on the budget-rolled state. -/
theorem runNow_exec (budget : Nat) (today : List Char) (ts : TaskState)
    (o : Outcome) (s e : Nat) :
    runNow true false false budget today ts o s e
      = (executeTask (resetDailyBudget today ts) o s e, true) := by
  simp [runNow]

/-- A failing handler bumps the error streak and trips the breaker exactly
at the threshold. -/
theorem executeTask_failure_state (ts : TaskState) (msg : List Char)
    (s e : Nat) :
    (executeTask ts (.failure msg) s e).consecutiveErrors
        = ts.consecutiveErrors + 1 ∧
    (executeTask ts (.failure msg) s e).enabled
        = (if ts.consecutiveErrors + 1 ≥ CIRCUIT_BREAKER_THRESHOLD then false
           else ts.enabled) ∧
    (executeTask ts (.failure msg) s e).disabledReason
        = (if ts.consecutiveErrors + 1 ≥ CIRCUIT_BREAKER_THRESHOLD then
             some "circuit-breaker".toList
           else ts.disabledReason) := by
  unfold executeTask
  by_cases h : ts.consecutiveErrors + 1 ≥ CIRCUIT_BREAKER_THRESHOLD
  · simp [h]
  · simp [h]

/-- C7: three consecutive throws under `runNow` leave the task with
`consecutiveErrors == 3`, `enabled == false` and `disabledReason ==
"circuit-breaker"`; a successful handler return resets the streak to 0;
`resetCircuitBreaker` clears the streak and the reason. -/
theorem C7_circuit_breaker (ts0 : TaskState) (today : List Char)
    (budget : Nat) (m1 m2 m3 : List Char) (t1 t2 t3 t4 t5 t6 : Nat)
    (h0 : ts0.consecutiveErrors = 0) :
    ((runNow true false false budget today
        (runNow true false false budget today
          (runNow true false false budget today ts0
            (.failure m1) t1 t2).1
          (.failure m2) t3 t4).1
        (.failure m3) t5 t6).1.consecutiveErrors = 3 ∧
     (runNow true false false budget today
        (runNow true false false budget today
          (runNow true false false budget today ts0
            (.failure m1) t1 t2).1
          (.failure m2) t3 t4).1
        (.failure m3) t5 t6).1.enabled = false ∧
     (runNow true false false budget today
        (runNow true false false budget today
          (runNow true false false budget today ts0
            (.failure m1) t1 t2).1
          (.failure m2) t3 t4).1
        (.failure m3) t5 t6).1.disabledReason
       = some "circuit-breaker".toList) ∧
    (∀ ts : TaskState, ∀ stats : List Char, ∀ ta tb : Nat,
      (executeTask ts (.success stats) ta tb).consecutiveErrors = 0) ∧
    (∀ ts : TaskState,
      (resetCircuitBreaker ts).consecutiveErrors = 0 ∧
      (resetCircuitBreaker ts).disabledReason = none) := by
  refine ⟨?_, fun ts stats ta tb => by simp [executeTask],
    fun ts => ⟨rfl, rfl⟩⟩
  rw [runNow_exec, runNow_exec, runNow_exec]
  have hb1 := resetDailyBudget_fields today ts0
  have hx1 := executeTask_failure_state (resetDailyBudget today ts0) m1 t1 t2
  have hce1 : (executeTask (resetDailyBudget today ts0)
      (.failure m1) t1 t2).consecutiveErrors = 1 := by
    rw [hx1.1, hb1.1, h0]
  have hb2 := resetDailyBudget_fields today
    (executeTask (resetDailyBudget today ts0) (.failure m1) t1 t2)
  have hx2 := executeTask_failure_state
    (resetDailyBudget today
      (executeTask (resetDailyBudget today ts0) (.failure m1) t1 t2)) m2 t3 t4
  have hce2 : (executeTask (resetDailyBudget today
      (executeTask (resetDailyBudget today ts0) (.failure m1) t1 t2))
      (.failure m2) t3 t4).consecutiveErrors = 2 := by
    rw [hx2.1, hb2.1, hce1]
  have hb3 := resetDailyBudget_fields today
    (executeTask (resetDailyBudget today
      (executeTask (resetDailyBudget today ts0) (.failure m1) t1 t2))
      (.failure m2) t3 t4)
  have hx3 := executeTask_failure_state
    (resetDailyBudget today
      (executeTask (resetDailyBudget today
        (executeTask (resetDailyBudget today ts0) (.failure m1) t1 t2))
        (.failure m2) t3 t4)) m3 t5 t6
  have hpre : (resetDailyBudget today
      (executeTask (resetDailyBudget today
        (executeTask (resetDailyBudget today ts0) (.failure m1) t1 t2))
        (.failure m2) t3 t4)).consecutiveErrors = 2 := by
    rw [hb3.1, hce2]
  refine ⟨by rw [hx3.1, hpre], ?_, ?_⟩
  · rw [hx3.2.1, hpre]
    simp [CIRCUIT_BREAKER_THRESHOLD]
  · rw [hx3.2.2, hpre]
    simp [CIRCUIT_BREAKER_THRESHOLD]

/-- Witness for C7 at a concrete initial state. -/
theorem C7_circuit_breaker_witness :
    (runNow true false false 50 "2026-10-11".toList
      (runNow true false false 50 "2026-10-11".toList
        (runNow true false false 50 "2026-10-11".toList demoTaskFresh
          (.failure "boom".toList) 1 2).1
        (.failure "boom".toList) 3 4).1
      (.failure "boom".toList) 5 6).1.disabledReason
      = some "circuit-breaker".toList := by
  have h := C7_circuit_breaker demoTaskFresh "2026-10-11".toList 50
    "boom".toList "boom".toList "boom".toList 1 2 3 4 5 6 rfl
  exact h.1.2.2


-- --- C10: runNow bypasses the tick guards -----------------------------------

/-- C10: `runNow` checks only the concurrency lock and (for LLM tasks) the
daily budget — it executes the handler even for a disabled task with an
open circuit breaker, and has no pause or activity-defer input at all;
`tick` by contrast skips under global pause, disablement, the defer
window, or an open breaker. -/
theorem C10_runNow_ignores_tick_guards
    (ts : TaskState) (budget : Nat) (today : List Char) (o : Outcome)
    (nowMs lastAct deferMs s e : Nat) (requiresLLM : Bool)
    (hdisabled : ts.enabled = false)
    (hbreaker : ts.consecutiveErrors ≥ CIRCUIT_BREAKER_THRESHOLD)
    (hbudget : requiresLLM = true →
      (resetDailyBudget today ts).llmCallsToday < budget) :
    (runNow true false requiresLLM budget today ts o s e).2 = true ∧
    (runNow true false requiresLLM budget today ts o s e).1
      = executeTask (resetDailyBudget today ts) o s e ∧
    tick true true nowMs lastAct deferMs false requiresLLM budget today
      ts o s e = (ts, false) ∧
    tick true false nowMs lastAct deferMs false requiresLLM budget today
      ts o s e = (ts, false) ∧
    (∀ ts2 : TaskState, ts2.enabled = true → nowMs - lastAct < deferMs →
      tick true false nowMs lastAct deferMs false requiresLLM budget today
        ts2 o s e = (ts2, false)) ∧
    (∀ ts2 : TaskState, ts2.enabled = true →
      ¬ nowMs - lastAct < deferMs →
      ts2.consecutiveErrors ≥ CIRCUIT_BREAKER_THRESHOLD →
      tick true false nowMs lastAct deferMs false requiresLLM budget today
        ts2 o s e = (ts2, false)) ∧
    (∀ running : Bool, running = true →
      runNow true running requiresLLM budget today ts o s e = (ts, false)) ∧
    (∀ ts2 : TaskState, requiresLLM = true →
      (resetDailyBudget today ts2).llmCallsToday ≥ budget →
      (runNow true false requiresLLM budget today ts2 o s e).2 = false) := by
  have hnb : ¬ (requiresLLM = true ∧
      (resetDailyBudget today ts).llmCallsToday ≥ budget) := by
    rintro ⟨hr, hge⟩
    exact absurd hge (by simpa using hbudget hr)
  refine ⟨?_, ?_, ?_, ?_, ?_, ?_, ?_, ?_⟩
  · simp [runNow, hnb]
  · simp [runNow, hnb]
  · simp [tick]
  · simp [tick, hdisabled]
  · intro ts2 hen hdef
    simp [tick, hen, hdef]
  · intro ts2 hen hdef hbrk
    simp [tick, hen, hdef, hbrk]
  · intro running hrun
    subst hrun
    simp [runNow]
  · intro ts2 hr hge
    subst hr
    simp [runNow, hge]

/-- Witness for C10: a disabled task with an open breaker still runs under
`runNow` while `tick` skips it. -/
theorem C10_runNow_ignores_tick_guards_witness :
    (runNow true false false 50 "2026-10-11".toList demoTaskTripped
      (.success "ok".toList) 1 2).2 = true ∧
    tick true false 1000 900 300000 false false 50 "2026-10-11".toList
      demoTaskTripped (.success "ok".toList) 1 2 = (demoTaskTripped, false) := by
  have h := C10_runNow_ignores_tick_guards demoTaskTripped 50
    "2026-10-11".toList (.success "ok".toList) 1000 900 300000 1 2 false
    rfl (by decide) (fun hcon => by cases hcon)
  exact ⟨h.1, h.2.2.2.1⟩


-- --- C8: WASM memory validation ---------------------------------------------

/-- The entry scanner accepts exactly the sections whose every scanned
entry is flagged with a maximum that stays within the page limit. -/
theorem checkMemEntries_none_iff (buf : List Nat) (mp : Int) :
    ∀ n pos, ((checkMemEntries buf pos mp n).1 = none ↔
      ∀ pr ∈ memEntries buf pos n,
        pr.1 &&& 1 ≠ 0 ∧ ∀ v ∈ pr.2, v ≤ mp) := by
  intro n
  induction n with
  | zero => intro pos; simp [checkMemEntries, memEntries]
  | succ n ih =>
      intro pos
      simp only [checkMemEntries, memEntries]
      split_ifs with hf hm
      · simp only [List.forall_mem_cons]
        constructor
        · intro hcon; exact hcon.elim
        · rintro ⟨⟨-, hv⟩, -⟩
          have := hv _ rfl
          omega
      · simp only [List.forall_mem_cons]
        constructor
        · intro h
          refine ⟨⟨hf, ?_⟩, (ih _).mp h⟩
          intro v hv
          simp only [Option.mem_def, Option.some.injEq] at hv
          omega
        · intro h
          exact (ih _).mpr h.2
      · simp only [List.forall_mem_cons, List.not_mem_nil]
        constructor
        · intro hcon; cases hcon
        · rintro ⟨⟨hne, -⟩, -⟩
          exact absurd hne (by simpa using hf)

/-- When no scanned maximum exceeds the limit, any entry that lacks the
maximum flag makes the scanner throw the unbounded-memory error. -/
theorem checkMemEntries_unbounded (buf : List Nat) (mp : Int) :
    ∀ n pos,
      (∀ pr ∈ memEntries buf pos n, ∀ v ∈ pr.2, v ≤ mp) →
      (∃ pr ∈ memEntries buf pos n, pr.1 &&& 1 = 0) →
      (checkMemEntries buf pos mp n).1 = some .unboundedMemory := by
  intro n
  induction n with
  | zero => intro pos _ hex; simp [memEntries] at hex
  | succ n ih =>
      intro pos hbound hex
      simp only [checkMemEntries, memEntries] at hbound hex ⊢
      split_ifs with hf hm
      · exfalso
        rw [if_pos hf] at hbound
        have hle := hbound _ (List.mem_cons_self _ _) _ rfl
        omega
      · rw [if_pos hf] at hbound hex
        apply ih
        · exact fun pr hpr => hbound pr (List.mem_cons_of_mem _ hpr)
        · obtain ⟨pr, hpr, hz⟩ := hex
          rcases List.mem_cons.mp hpr with rfl | hmem
          · exact absurd hz (by simpa using hf)
          · exact ⟨pr, hmem, hz⟩
      · rfl

/-- A loop run that ends in `ok` cleared the entry check of every memory
section it visited. -/
theorem validateMemLoop_ok (buf : List Nat) (mp : Int) :
    ∀ fuel offset, validateMemLoop buf offset mp fuel = .ok →
      ∀ s ∈ sectionScan buf offset fuel, s.1 = 5 →
        checkMemSection buf s.2 mp = none := by
  intro fuel
  induction fuel with
  | zero => intro offset h; cases h
  | succ fuel ih =>
      intro offset h s hs h5
      simp only [validateMemLoop, sectionScan] at h hs
      by_cases hoff : offset < (buf.length : Int)
      · rw [if_pos hoff] at h hs
        rcases List.mem_cons.mp hs with rfl | hmem
        · simp only at h5 ⊢
          by_cases hid : byteAt buf offset = 5
          · rw [if_pos hid] at h
            cases hc : checkMemSection buf
                (offset + 1 + (readLEB128U buf (offset + 1)).2) mp with
            | none => exact rfl
            | some e => rw [hc] at h; cases h
          · exact absurd h5 hid
        · by_cases hid : byteAt buf offset = 5
          · rw [if_pos hid] at h
            cases hc : checkMemSection buf
                (offset + 1 + (readLEB128U buf (offset + 1)).2) mp with
            | none => rw [hc] at h; exact ih _ h s hmem h5
            | some e => rw [hc] at h; cases h
          · rw [if_neg hid] at h
            exact ih _ h s hmem h5
      · rw [if_neg hoff] at hs
        cases hs

/-- C8 (amended): the pre-compilation validator decides by the maxima its
32-bit LEB128 reader computes — a module passes a visited memory section
only if every scanned entry declares a maximum (flags bit 0 set) whose
JS-decoded value stays within `maxMemoryPages`; an entry with no maximum
flag is rejected with the error whose text contains "unbounded memory"
(whenever no earlier entry already exceeded the limit); and `run()`
instantiates only when the validator returns ok.  Declared maxima of
2^28 pages and above can overflow the reader's 32-bit arithmetic and
evade the check (see the counterexample). -/
theorem C8_wasm_memory_validation (buf : List Nat) (mp : Int) :
    (∀ fuel offset, validateMemLoop buf offset mp fuel = .ok →
      ∀ s ∈ sectionScan buf offset fuel, s.1 = 5 →
        ∀ pr ∈ sectionMemEntries buf s.2,
          pr.1 &&& 1 ≠ 0 ∧ ∀ v ∈ pr.2, v ≤ mp) ∧
    (∀ pos n, ((checkMemEntries buf pos mp n).1 = none ↔
      ∀ pr ∈ memEntries buf pos n,
        pr.1 &&& 1 ≠ 0 ∧ ∀ v ∈ pr.2, v ≤ mp)) ∧
    (∀ pos n,
      (∀ pr ∈ memEntries buf pos n, ∀ v ∈ pr.2, v ≤ mp) →
      (∃ pr ∈ memEntries buf pos n, pr.1 &&& 1 = 0) →
      (checkMemEntries buf pos mp n).1 = some .unboundedMemory) ∧
    containsSub "unbounded memory".toList
      (vErrMessage .unboundedMemory) = true ∧
    (∀ bytes : List Nat, runInstantiates bytes mp = true →
      validateMemorySection bytes mp = .ok) := by
  refine ⟨?_, fun pos n => checkMemEntries_none_iff buf mp n pos,
    fun pos n => checkMemEntries_unbounded buf mp n pos, by decide,
    fun bytes h => by simpa [runInstantiates] using h⟩
  intro fuel offset hok s hs h5 pr hpr
  have hnone := validateMemLoop_ok buf mp fuel offset hok s hs h5
  unfold checkMemSection at hnone
  unfold sectionMemEntries at hpr
  exact (checkMemEntries_none_iff buf mp _ _).mp hnone pr hpr

/-- Witness for C8: a bounded 16-page module clears the entry check. -/
theorem C8_wasm_memory_validation_witness :
    (checkMemEntries exWasmBounded 11 1024 1).1 = none :=
  ((C8_wasm_memory_validation exWasmBounded 1024).2.1 11 1).mpr (by decide)

/-- C8 (counterexample): a module declaring memory maximum 2^32 pages
(unsigned LEB `80 80 80 80 10`, as `ulebDecode` confirms) passes the
validator with limit 1024 — the 32-bit `|`/`<<` arithmetic of
`readLEB128U` truncates the declared maximum to 0 — even though
2^32 > 1024, so the claimed rejection of every over-limit maximum fails. -/
theorem C8_counterexample :
    validateMemorySection exWasmOverflow 1024 = .ok ∧
    sectionMemEntries exWasmOverflow 10 = [(1, some 0)] ∧
    ulebDecode [0x80, 0x80, 0x80, 0x80, 0x10] = 4294967296 := by
  refine ⟨by decide, by decide, by decide⟩

-- --- C9: low-confidence clarification ---------------------------------------

/-- The clarification generator always returns between one and three
questions. -/
theorem generateClarifications_length (prompt : List Char) :
    1 ≤ (generateClarifications prompt).length ∧
    (generateClarifications prompt).length ≤ 3 := by
  have key : ∀ (qs : List (List Char)) (fb : List Char),
      1 ≤ ((if qs = [] then [fb] else qs).take 3).length ∧
      ((if qs = [] then [fb] else qs).take 3).length ≤ 3 := by
    intro qs fb
    have h1 : 1 ≤ (if qs = [] then [fb] else qs).length := by
      split_ifs with h
      · simp
      · exact List.length_pos.mpr h
    constructor
    · simp only [List.length_take]
      omega
    · simp only [List.length_take]
      omega
  simp only [generateClarifications]
  exact key _ _

/-- C9: a prompt scoring below 0.45 without the force option yields the
clarification outcome — the branch that returns before any provider is
selected or called — carrying between one and three questions. -/
theorem C9_low_confidence_clarifies (clean : List Char) (force : Bool)
    (hscore : (scoreConfidence clean).score < 0.45) (hforce : force = false) :
    generateFromClean clean force
      = .clarification (scoreConfidence clean).score
          (generateClarifications clean) ∧
    1 ≤ (generateClarifications clean).length ∧
    (generateClarifications clean).length ≤ 3 := by
  refine ⟨?_, generateClarifications_length clean⟩
  unfold generateFromClean
  rw [if_pos ⟨hscore, hforce⟩]

/-- The vague prompt "do something" scores 0.15, below the 0.45 gate:
two words (0.2), no specificity signal (0), a VAGUE match (0.1), no
capability hint (0.5), weighted and rounded. -/
theorem scoreConfidence_do_something :
    (scoreConfidence "do something".toList).score < 0.45 := by
  have hspec : (SPECIFICITY_SIGNALS.filter
      (fun g => testAnySub g "do something".toList)).length = 0 := by decide
  have hcap : (CAPABILITY_HINTS.filter
      (fun g => testAnySub g "do something".toList)).length = 0 := by decide
  have hvague : isVague "do something".toList = true := by decide
  have hwords : (promptWords "do something".toList).length = 2 := by decide
  simp only [scoreConfidence, hspec, hcap, hvague, hwords, jsRound100]
  norm_num [min_def]

/-- Witness for C9 on the vague prompt "do something" (score 0.15). -/
theorem C9_low_confidence_clarifies_witness :
    generateFromClean "do something".toList false
      = .clarification (scoreConfidence "do something".toList).score
          (generateClarifications "do something".toList) ∧
    1 ≤ (generateClarifications "do something".toList).length :=
  ⟨(C9_low_confidence_clarifies "do something".toList false
      scoreConfidence_do_something rfl).1,
   (C9_low_confidence_clarifies "do something".toList false
      scoreConfidence_do_something rfl).2.1⟩

/-- C2 (counterexample): a single-bit mutation of a valid issued token —
bit 1 of the final character, which lies in the ignored base64url padding
bits of the signature — still verifies as valid, contradicting the claim
that every single-bit mutation yields `valid == false`. -/
theorem C2_counterexample :
    (verifyToken (some exKey) demoNow [] exToken).valid = true ∧
    mutateBit exToken 228 1 ≠ exToken ∧
    (verifyToken (some exKey) demoNow [] (mutateBit exToken 228 1)).valid
      = true := by
  refine ⟨by decide, by decide, by decide⟩

end LlmOs
